import Mathlib

/-!
Verification of the CSV aggregation core of the `maintenance` repository.

The embedding covers:
* `src/code_growth_total.py` (`main`): merging per-repository `code_growth-*.csv`
  series into one `code_growth_total.csv` series, modelled by `aggregateCSV`
  (string rows, as written by `csv.writer`) and `aggregateData` (the same rows
  before rendering).  A CSV file is a header plus data rows of string cells.
  Python's `int(...)` raising `ValueError` on a malformed cell (which aborts
  the whole script, so no output file is written) is modelled by the
  `Except Unit` layer; `pyInt?` models `int(...)` on canonical integer
  literals (an optional minus sign followed by digits; the more lenient forms
  Python additionally accepts, such as surrounding whitespace or a leading
  plus sign, do not occur in this pipeline's data and are not modelled).
* the per-commit delta loop of `src/create_loc_csv.py` (`generate_csv_rows`),
  with the external `git checkout` / `cloc` steps - out-of-scope collaborators
  per the specification - abstracted into a list of per-commit outcomes
  (`none` models a commit whose processing raised and was skipped).

String cells are compared the way Python compares `str` values, i.e.
lexicographically by code point; this is `List.Lex (· < ·)` on `String.data`
(`strLt` below).  Integer cells are unbounded integers, as in Python.
-/

namespace Maintenance

/-- Lexicographic (code-point) order on strings, as used by Python's `sorted`
and `<` on `str`. -/
def strLt (a b : String) : Prop :=
  List.Lex (fun c d : Char => c < d) a.data b.data

/-- Reflexive closure of `strLt`; the order `sorted` sorts by. -/
def strLe (a b : String) : Prop :=
  strLt a b ∨ a = b

instance (a b : String) : Decidable (strLt a b) := by
  unfold strLt; infer_instance

instance (a b : String) : Decidable (strLe a b) := by
  unfold strLe; infer_instance

instance : IsTrichotomous String strLt := by
  constructor
  intro a b
  rcases trichotomous_of (List.Lex (fun c d : Char => c < d)) a.data b.data with h | h | h
  · exact Or.inl h
  · refine Or.inr (Or.inl ?_)
    cases a; cases b; exact congrArg String.mk h
  · exact Or.inr (Or.inr h)

instance : IsTrans String strLt := by
  constructor
  intro a b c h₁ h₂
  exact trans_of (List.Lex (fun c d : Char => c < d)) h₁ h₂

instance : IsAsymm String strLt := by
  constructor
  intro a b h₁ h₂
  exact asymm_of (List.Lex (fun c d : Char => c < d)) h₁ h₂

instance : IsIrrefl String strLt := by
  constructor
  intro a h
  exact asymm_of (List.Lex (fun c d : Char => c < d)) h h

instance : IsTotal String strLe := by
  constructor
  intro a b
  rcases trichotomous_of strLt a b with h | h | h
  · exact Or.inl (Or.inl h)
  · exact Or.inl (Or.inr h)
  · exact Or.inr (Or.inl h)

instance : IsTrans String strLe := by
  constructor
  intro a b c h₁ h₂
  rcases h₁ with h₁ | rfl
  · rcases h₂ with h₂ | rfl
    · exact Or.inl (trans_of strLt h₁ h₂)
    · exact Or.inl h₁
  · exact h₂

instance : IsAntisymm String strLe := by
  constructor
  intro a b h₁ h₂
  rcases h₁ with h₁ | rfl
  · rcases h₂ with h₂ | rfl
    · exact absurd h₂ (asymm_of strLt h₁)
    · rfl
  · rfl

instance : IsRefl String strLe := by
  constructor
  intro a
  exact Or.inr rfl

/-- Digits-only parser used by `pyInt?`; `none` on the empty list or any
non-digit character. -/
def digitsToNatGo : List Char → Nat → Option Nat
  | [], acc => some acc
  | c :: cs, acc =>
    if c.isDigit then digitsToNatGo cs (acc * 10 + (c.toNat - 48)) else none

/-- Value of a nonempty all-digit character list, `none` otherwise. -/
def digitsToNat : List Char → Option Nat
  | [] => none
  | cs => digitsToNatGo cs 0

/-- Models Python's `int(s)` on canonical integer literals: an optional `-`
followed by one or more digits.  `none` models `int` raising `ValueError`. -/
def pyInt? (s : String) : Option Int :=
  match s.data with
  | '-' :: cs => (digitsToNat cs).map (fun n => -(n : Int))
  | cs => (digitsToNat cs).map (fun n => (n : Int))

/-- Models `int(cell) if cell else 0` (lines 72-73 of
`src/code_growth_total.py`); an error models the uncaught `ValueError` that
aborts the script. -/
def parseField (s : String) : Except Unit Int :=
  if s = "" then Except.ok 0
  else
    match pyInt? s with
    | some v => Except.ok v
    | none => Except.error ()

/-- Decimal digits of `n`, most significant first; `fuel`-driven structural
recursion (any `fuel > n` is enough). -/
def natToDigitsAux : Nat → Nat → List Char
  | 0, _ => []
  | fuel + 1, n =>
    if n < 10 then [Char.ofNat (48 + n)]
    else natToDigitsAux fuel (n / 10) ++ [Char.ofNat (48 + n % 10)]

/-- Decimal rendering of a natural number, as Python's `str`. -/
def natToStr (n : Nat) : String :=
  String.mk (natToDigitsAux (n + 1) n)

/-- Decimal rendering of an integer, as Python's `str` (used by `csv.writer`
on the `int` cells of the output). -/
def intToStr (v : Int) : String :=
  match v with
  | Int.ofNat n => natToStr n
  | Int.negSucc n => String.mk ('-' :: (natToStr (n + 1)).data)

/-- The fixed anchor date `INITIAL_DATE` of both scripts. -/
def INITIAL_DATE : String := "2024-11-01 00:00:00"

/-- One input CSV file: the header row and the data rows, each a list of
string cells (as produced by `csv.reader`). -/
structure CSVFile where
  header : List String
  rows : List (List String)
deriving DecidableEq

/-- The language columns of a file: `header[6:]`. -/
def fileLangs (f : CSVFile) : List String :=
  f.header.drop 6

/-- State of the aggregation loop: the key set of the `combined_data`
defaultdict (`dates`, first-seen order, no duplicates) and its contents
(`acc`, defaulting to 0 - `defaultdict(lambda: defaultdict(int))`). -/
structure AggState where
  dates : List String
  acc : String → String → Int

/-- Models `combined_data[d][k] += v`. -/
def bump (f : String → String → Int) (d k : String) (v : Int) :
    String → String → Int :=
  fun d' k' => if d' = d ∧ k' = k then f d' k' + v else f d' k'

/-- Models the key `d` entering `combined_data` (insertion-ordered dict
keys). -/
def addDate (ds : List String) (d : String) : List String :=
  if d ∈ ds then ds else ds ++ [d]

/-- Models lines 79-82 of `src/code_growth_total.py`: for each language column
`i` of the file's header, if `i + 6 < len(row)` and the cell is nonempty, add
`int(row[i+6])` to `combined_data[date][lang]`. -/
def processLangs (date : String) (row : List String) :
    Nat → List String → (String → String → Int) →
    Except Unit (String → String → Int)
  | _, [], acc => Except.ok acc
  | i, lang :: rest, acc =>
    if i + 6 < row.length ∧ row.getD (i + 6) "" ≠ "" then
      match pyInt? (row.getD (i + 6) "") with
      | some v => processLangs date row (i + 1) rest (bump acc date lang v)
      | none => Except.error ()
    else processLangs date row (i + 1) rest acc

/-- Models lines 64-82 of `src/code_growth_total.py`: skip rows with fewer
than 6 fields, parse `lines_of_code` and `delta`, add `lines_of_code` to
`combined_data[date]["total_loc"]`, then run the language loop. -/
def processRow (langs : List String) (st : AggState) (row : List String) :
    Except Unit AggState :=
  if row.length < 6 then Except.ok st
  else
    match parseField (row.getD 4 "") with
    | Except.error e => Except.error e
    | Except.ok loc =>
      match parseField (row.getD 5 "") with
      | Except.error e => Except.error e
      | Except.ok _ =>
        match processLangs (row.getD 2 "") row 0 langs
            (bump st.acc (row.getD 2 "") "total_loc" loc) with
        | Except.error e => Except.error e
        | Except.ok acc2 =>
          Except.ok (AggState.mk (addDate st.dates (row.getD 2 "")) acc2)

/-- Folds `processRow` over a file's data rows. -/
def processRows (langs : List String) :
    AggState → List (List String) → Except Unit AggState
  | st, [] => Except.ok st
  | st, row :: rest =>
    match processRow langs st row with
    | Except.error e => Except.error e
    | Except.ok st2 => processRows langs st2 rest

/-- Processes one file's rows against its own header's language columns. -/
def processFile (st : AggState) (f : CSVFile) : Except Unit AggState :=
  processRows (fileLangs f) st f.rows

/-- Folds `processFile` over all input files. -/
def processFiles : AggState → List CSVFile → Except Unit AggState
  | st, [] => Except.ok st
  | st, f :: fs =>
    match processFile st f with
    | Except.error e => Except.error e
    | Except.ok st2 => processFiles st2 fs

/-- The empty `combined_data`. -/
def initialState : AggState :=
  AggState.mk [] (fun _ _ => 0)

/-- Models `all_languages` (the set union of every header's language columns)
as a duplicate-free list. -/
def all_languages (files : List CSVFile) : List String :=
  ((files.map fileLangs).flatten).dedup

/-- Models `sorted_languages = sorted(all_languages)`. -/
def sorted_languages (files : List CSVFile) : List String :=
  List.insertionSort strLe (all_languages files)

/-- Models `sorted([d for d in combined_data.keys() if d != INITIAL_DATE])`. -/
def sorted_dates (st : AggState) : List String :=
  List.insertionSort strLe (st.dates.filter (fun d => d ≠ INITIAL_DATE))

/-- One output row before rendering: date, `total_loc`, and the per-language
values in `sorted_languages` order. -/
structure OutRow where
  date : String
  total_loc : Int
  langVals : List Int
deriving DecidableEq

/-- Models `initial_row = [INITIAL_DATE, 0] + [0] * len(sorted_languages)`. -/
def initial_row (langs : List String) : OutRow :=
  OutRow.mk INITIAL_DATE 0 (List.replicate langs.length 0)

/-- Models `row = [date, data["total_loc"]] + [data[lang] for lang in
sorted_languages]`. -/
def dateRow (acc : String → String → Int) (langs : List String) (d : String) :
    OutRow :=
  OutRow.mk d (acc d "total_loc") (langs.map (fun l => acc d l))

/-- The output data rows: the anchor row, then one row per accumulated date in
sorted order. -/
def outputData (st : AggState) (langs : List String) : List OutRow :=
  initial_row langs :: (sorted_dates st).map (dateRow st.acc langs)

/-- The output header row `["date", "total_loc"] + sorted_languages`. -/
def headerRow (files : List CSVFile) : List String :=
  "date" :: "total_loc" :: sorted_languages files

/-- Renders an output row the way `csv.writer` serializes it (each `int` cell
via `str`). -/
def renderRow (r : OutRow) : List String :=
  r.date :: intToStr r.total_loc :: r.langVals.map intToStr

/-- The aggregator of `src/code_growth_total.py` at the `OutRow` level.
`Except.ok none` models the early `return` when no input CSV files exist (no
output file is written); `Except.error ()` models an uncaught `ValueError`
aborting the script (again no output file); `Except.ok (some rows)` models a
written output with data rows `rows`. -/
def aggregateData (files : List CSVFile) : Except Unit (Option (List OutRow)) :=
  if files.isEmpty then Except.ok none
  else
    match processFiles initialState files with
    | Except.error e => Except.error e
    | Except.ok st => Except.ok (some (outputData st (sorted_languages files)))

/-- The aggregator at the string-cell level: the header row followed by the
rendered data rows - the exact rows `csv.writer` receives. -/
def aggregateCSV (files : List CSVFile) :
    Except Unit (Option (List (List String))) :=
  if files.isEmpty then Except.ok none
  else
    match processFiles initialState files with
    | Except.error e => Except.error e
    | Except.ok st =>
      Except.ok (some (headerRow files ::
        (outputData st (sorted_languages files)).map renderRow))

/-- One record of a per-repository series, as far as claim C9 is concerned:
the `total_lines` and `delta` cells written for one successfully processed
commit. -/
structure LocRecord where
  total_lines : Int
  delta : Int
deriving DecidableEq

/-- Models the per-commit loop of `src/create_loc_csv.py` (lines 207-245):
`i` is the `enumerate` index over all commits, `prev` is `prev_total_lines`.
A `none` outcome models a commit whose checkout / `cloc` invocation / JSON
parse raised, so the `except` branch skips it (`continue`); `some t` models a
successfully counted commit with total `t`.  On success the row records
`delta = total_lines - prev_total_lines if i > 0 else total_lines` and
`prev_total_lines` is updated. -/
def commitRows : Nat → Int → List (Option Int) → List LocRecord
  | _, _, [] => []
  | i, prev, none :: rest => commitRows (i + 1) prev rest
  | i, prev, some t :: rest =>
    LocRecord.mk t (if i > 0 then t - prev else t) :: commitRows (i + 1) t rest

/-- The rows `generate_csv` records for one repository, given the per-commit
outcomes (`prev_total_lines` starts at 0, `enumerate` at index 0). -/
def generate_csv_rows (outcomes : List (Option Int)) : List LocRecord :=
  commitRows 0 0 outcomes

/-- Integer value of a cell the way the row loop reads it: empty means 0,
otherwise the parsed value (meaningful on cells `pyInt?` accepts; used to
characterize the accumulator in the crash-free case). -/
def fieldVal (s : String) : Int :=
  if s = "" then 0 else (pyInt? s).getD 0

/-- Contribution of the language loop of one row to `combined_data[·][k]`,
starting at column index `i + 6`: each in-range nonempty cell whose header
language equals `k` contributes its value. -/
def langsContrib (row : List String) : Nat → List String → String → Int
  | _, [], _ => 0
  | i, lang :: rest, k =>
    (if k = lang ∧ i + 6 < row.length ∧ row.getD (i + 6) "" ≠ "" then
      fieldVal (row.getD (i + 6) "") else 0)
    + langsContrib row (i + 1) rest k

/-- Total contribution of one row to `combined_data[d][k]`: rows shorter than
6 fields and rows dated other than `d` contribute nothing; the key
`"total_loc"` additionally receives the row's `lines_of_code` cell. -/
def rowContrib (langs : List String) (row : List String) (d k : String) : Int :=
  if 6 ≤ row.length ∧ row.getD 2 "" = d then
    (if k = "total_loc" then fieldVal (row.getD 4 "") else 0)
    + langsContrib row 0 langs k
  else 0

/-- Contribution of one file to `combined_data[d][k]`. -/
def fileContrib (f : CSVFile) (d k : String) : Int :=
  (f.rows.map (fun r => rowContrib (fileLangs f) r d k)).sum

/-- Contribution of all files to `combined_data[d][k]`. -/
def filesContrib (files : List CSVFile) (d k : String) : Int :=
  (files.map (fun f => fileContrib f d k)).sum

/-- The date a row registers in `combined_data` (rows shorter than 6 fields
register none). -/
def rowDate (row : List String) : Option String :=
  if 6 ≤ row.length then some (row.getD 2 "") else none

/-- All dates a file's rows register. -/
def fileDates (f : CSVFile) : List String :=
  f.rows.filterMap rowDate

/-- All dates any input row registers. -/
def filesDates (files : List CSVFile) : List String :=
  (files.map fileDates).flatten

/-- Whether a numeric cell parses without raising: empty or a valid integer
literal. -/
def cellOk (s : String) : Bool :=
  (s == "") || (pyInt? s).isSome

/-- Whether the language loop of a row runs without raising. -/
def langsOk (row : List String) : Nat → List String → Bool
  | _, [] => true
  | i, _ :: rest =>
    (if i + 6 < row.length ∧ row.getD (i + 6) "" ≠ "" then
      (pyInt? (row.getD (i + 6) "")).isSome else true)
    && langsOk row (i + 1) rest

/-- Whether one row is processed without raising. -/
def rowOkB (langs : List String) (row : List String) : Bool :=
  if row.length < 6 then true
  else cellOk (row.getD 4 "") && cellOk (row.getD 5 "") && langsOk row 0 langs

/-- Whether a whole file is processed without raising. -/
def fileOkB (f : CSVFile) : Bool :=
  f.rows.all (rowOkB (fileLangs f))

/-- The per-record invariant claim C1 assumes of its inputs: every language
column of the header is present as a field (so the row has at least
`6 + len(languages)` fields) and the `lines_of_code` cell equals the sum of
the per-language cells (empty cells counting as 0). -/
def recordInvariant (files : List CSVFile) : Prop :=
  ∀ f ∈ files, ∀ r ∈ f.rows,
    6 + (fileLangs f).length ≤ r.length ∧
    fieldVal (r.getD 4 "") =
      ((List.range (fileLangs f).length).map
        (fun i => fieldVal (r.getD (6 + i) ""))).sum

/-- The property claim C1 asserts of the output: every data row's `total_loc`
equals the sum of that row's per-language values. -/
def totalsMatch (rows : List OutRow) : Prop :=
  ∀ r ∈ rows, r.total_loc = r.langVals.sum

/-- Some input row dated `d` has a nonempty in-range cell in a column the
file's header labels `lang` - i.e. `lang` receives a contribution on `d`. -/
def hasContribution (files : List CSVFile) (d lang : String) : Prop :=
  ∃ f ∈ files, ∃ r ∈ f.rows,
    6 ≤ r.length ∧ r.getD 2 "" = d ∧
    ∃ i < (fileLangs f).length, (fileLangs f).getD i "" = lang ∧
      i + 6 < r.length ∧ r.getD (i + 6) "" ≠ ""

/-- Drops a file's rows dated at the anchor date (used to state that such
rows contribute nothing to the output). -/
def dropAnchorRows (f : CSVFile) : CSVFile :=
  CSVFile.mk f.header (f.rows.filter (fun r => r.getD 2 "" ≠ INITIAL_DATE))

/-- Modelled from the spec's words for claim C9: each record's `delta` is its
`total_lines` minus the previous successfully processed record's
`total_lines`, with 0 standing in for the very first record's predecessor. -/
def deltaSpecRows (totals : List Int) : List LocRecord :=
  List.zipWith (fun t p => LocRecord.mk t (t - p)) totals (0 :: totals)

/-- Whether an `Except` computation succeeded. -/
def exOk {α : Type} (x : Except Unit α) : Bool :=
  match x with
  | Except.ok _ => true
  | Except.error _ => false

/-- Sum of the in-range nonempty language cells of one row, starting at column
`i + 6` - the total amount the language loop distributes among the language
keys. -/
def langsCellSum (row : List String) : Nat → List String → Int
  | _, [] => 0
  | i, _ :: rest =>
    (if i + 6 < row.length ∧ row.getD (i + 6) "" ≠ "" then
      fieldVal (row.getD (i + 6) "") else 0)
    + langsCellSum row (i + 1) rest

instance {ε α : Type} [DecidableEq ε] [DecidableEq α] : DecidableEq (Except ε α) :=
  fun a b =>
    match a, b with
    | Except.error e1, Except.error e2 => decidable_of_iff (e1 = e2) (by simp)
    | Except.error _, Except.ok _ => isFalse (by simp)
    | Except.ok _, Except.error _ => isFalse (by simp)
    | Except.ok v1, Except.ok v2 => decidable_of_iff (v1 = v2) (by simp)

instance (files : List CSVFile) : Decidable (recordInvariant files) := by
  unfold recordInvariant; infer_instance

instance (rows : List OutRow) : Decidable (totalsMatch rows) := by
  unfold totalsMatch; infer_instance

instance (files : List CSVFile) (d lang : String) :
    Decidable (hasContribution files d lang) := by
  unfold hasContribution; infer_instance

/-- Counterexample input for claim C1: the header's language columns are
`A` and `total_loc`; the row satisfies the per-record invariant (5 = 3 + 2). -/
def c1file : CSVFile :=
  CSVFile.mk
    ["repo_name", "commit_hash", "datetime", "author", "lines_of_code",
      "delta", "A", "total_loc"]
    [["r", "h", "2025-01-02 03:04:05", "a", "5", "0", "3", "2"]]

/-- Output data rows the aggregator produces on `[c1file]`. -/
def c1out : List OutRow :=
  [OutRow.mk INITIAL_DATE 0 [0, 0],
    OutRow.mk "2025-01-02 03:04:05" 7 [3, 7]]

/-- Witness input for the amended claim C1: same shape as `c1file` but with
language columns `A` and `B`. -/
def c1wfile : CSVFile :=
  CSVFile.mk
    ["repo_name", "commit_hash", "datetime", "author", "lines_of_code",
      "delta", "A", "B"]
    [["r", "h", "2025-01-02 03:04:05", "a", "5", "0", "3", "2"]]

/-- Output data rows the aggregator produces on `[c1wfile]`. -/
def c1wout : List OutRow :=
  [OutRow.mk INITIAL_DATE 0 [0, 0],
    OutRow.mk "2025-01-02 03:04:05" 5 [3, 2]]

/-- Counterexample input for claim C3: the single language column is named
`total_loc` and its cell is empty, so the language receives no contribution
on the row's date. -/
def c3file : CSVFile :=
  CSVFile.mk
    ["repo_name", "commit_hash", "datetime", "author", "lines_of_code",
      "delta", "total_loc"]
    [["r", "h", "2025-06-01 00:00:00", "a", "5", "0", ""]]

/-- String rows the aggregator produces on `[c3file]`: the `total_loc`
language column shows 5 although the language received no contribution. -/
def c3out : List (List String) :=
  [["date", "total_loc", "total_loc"],
    [INITIAL_DATE, "0", "0"],
    ["2025-06-01 00:00:00", "5", "5"]]

/-- Counterexample input for claim C4: a single valid row dated before the
anchor date. -/
def c4file : CSVFile :=
  CSVFile.mk
    ["repo_name", "commit_hash", "datetime", "author", "lines_of_code",
      "delta"]
    [["r", "h", "2023-01-01 00:00:00", "a", "1", "1"]]

/-- Output data rows the aggregator produces on `[c4file]`: the anchor row
comes first although its date is larger. -/
def c4out : List OutRow :=
  [OutRow.mk INITIAL_DATE 0 [],
    OutRow.mk "2023-01-01 00:00:00" 1 []]

/-- First witness input for claim C5: languages `{A: 100}`, `total_loc` 100,
on date `2025-03-04 05:06:07`. -/
def c5f : CSVFile :=
  CSVFile.mk
    ["repo_name", "commit_hash", "datetime", "author", "lines_of_code",
      "delta", "A"]
    [["r1", "h1", "2025-03-04 05:06:07", "a", "100", "0", "100"]]

/-- Second witness input for claim C5: languages `{B: 100}`, `total_loc` 100,
on the same date. -/
def c5g : CSVFile :=
  CSVFile.mk
    ["repo_name", "commit_hash", "datetime", "author", "lines_of_code",
      "delta", "B"]
    [["r2", "h2", "2025-03-04 05:06:07", "b", "100", "0", "100"]]

/-- Output data rows the aggregator produces on `[c5f, c5g]`. -/
def c5out : List OutRow :=
  [OutRow.mk INITIAL_DATE 0 [0, 0],
    OutRow.mk "2025-03-04 05:06:07" 200 [100, 100]]

/-- Counterexample input for claim C10: a 6-field row whose `lines_of_code`
cell is the non-numeral `x`, on which `int(...)` raises. -/
def c10file : CSVFile :=
  CSVFile.mk
    ["repo_name", "commit_hash", "datetime", "author", "lines_of_code",
      "delta"]
    [["r", "h", "2025-06-01 00:00:00", "a", "x", "0"]]

/-- String rows the aggregator produces on `[c1wfile]` (used by witnesses). -/
def c2wout : List (List String) :=
  [["date", "total_loc", "A", "B"],
    [INITIAL_DATE, "0", "0", "0"],
    ["2025-01-02 03:04:05", "5", "3", "2"]]

/-- The output claim C6 asserts for an empty input set: an anchor-only output
with zero language columns (header plus the all-zero anchor row). -/
def emitsAnchorOnlyOutput (files : List CSVFile) : Prop :=
  aggregateCSV files =
    Except.ok (some [["date", "total_loc"], [INITIAL_DATE, "0"]])

theorem parseField_ok_val {s : String} {v : Int} (h : parseField s = Except.ok v) :
    fieldVal s = v := by
  unfold parseField at h
  by_cases hs : s = ""
  · rw [if_pos hs] at h
    injection h with h'
    rw [fieldVal, if_pos hs]
    exact h'
  · rw [if_neg hs] at h
    cases hp : pyInt? s with
    | none => rw [hp] at h; exact Except.noConfusion h
    | some w =>
      rw [hp] at h
      injection h with h'
      rw [fieldVal, if_neg hs, hp]
      exact h'

theorem parseField_exOk (s : String) : exOk (parseField s) = cellOk s := by
  unfold parseField cellOk exOk
  by_cases hs : s = ""
  · simp [hs]
  · cases hp : pyInt? s <;> simp [hs, hp]

theorem exOk_true_iff {α : Type} (x : Except Unit α) :
    exOk x = true ↔ ∃ v, x = Except.ok v := by
  cases x <;> simp [exOk]

theorem mem_addDate (ds : List String) (d x : String) :
    x ∈ addDate ds d ↔ x ∈ ds ∨ x = d := by
  unfold addDate
  by_cases hm : d ∈ ds
  · rw [if_pos hm]
    constructor
    · exact Or.inl
    · rintro (h | rfl)
      · exact h
      · exact hm
  · rw [if_neg hm]
    simp

theorem addDate_nodup {ds : List String} (h : ds.Nodup) (d : String) :
    (addDate ds d).Nodup := by
  unfold addDate
  by_cases hm : d ∈ ds
  · rw [if_pos hm]; exact h
  · rw [if_neg hm]
    have := List.Nodup.concat hm h
    simpa [List.concat_eq_append] using this

theorem langsContrib_cons (row : List String) (i : Nat) (lang : String)
    (rest : List String) (k : String) :
    langsContrib row i (lang :: rest) k =
      (if k = lang ∧ i + 6 < row.length ∧ row.getD (i + 6) "" ≠ "" then
        fieldVal (row.getD (i + 6) "") else 0)
      + langsContrib row (i + 1) rest k :=
  rfl

theorem langsContrib_of_not_mem {row : List String} {k : String} :
    ∀ {i : Nat} {langs : List String}, k ∉ langs →
      langsContrib row i langs k = 0
  | _, [], _ => rfl
  | i, lang :: rest, h => by
    have hk : ¬ k = lang := fun hkl => h (hkl ▸ List.mem_cons_self lang rest)
    have hr : k ∉ rest := fun hkr => h (List.mem_cons_of_mem lang hkr)
    rw [langsContrib_cons, langsContrib_of_not_mem hr,
      if_neg (fun hc => hk hc.1)]
    rfl

theorem langsContrib_of_all_fail {row : List String} {k : String} :
    ∀ {i : Nat} {langs : List String},
      (∀ j, j < langs.length → langs.getD j "" = k →
        ¬(i + j + 6 < row.length ∧ row.getD (i + j + 6) "" ≠ "")) →
      langsContrib row i langs k = 0
  | _, [], _ => rfl
  | i, lang :: rest, h => by
    have h0 : ¬(k = lang ∧ i + 6 < row.length ∧ row.getD (i + 6) "" ≠ "") := by
      rintro ⟨rfl, hg⟩
      exact h 0 (Nat.succ_pos _) (by simp) (by simpa using hg)
    have hr : ∀ j, j < rest.length → rest.getD j "" = k →
        ¬(i + 1 + j + 6 < row.length ∧ row.getD (i + 1 + j + 6) "" ≠ "") := by
      intro j hj hgd
      have hjj := h (j + 1) (by simpa using Nat.succ_lt_succ hj) (by simpa using hgd)
      have harith : i + (j + 1) + 6 = i + 1 + j + 6 := by omega
      rw [harith] at hjj
      exact hjj
    rw [langsContrib_cons, langsContrib_of_all_fail hr, if_neg h0]
    rfl

theorem processLangs_ok_acc {date : String} {row : List String} :
    ∀ {i : Nat} {langs : List String} {a a' : String → String → Int},
      processLangs date row i langs a = Except.ok a' →
      ∀ d k, a' d k = a d k + (if d = date then langsContrib row i langs k else 0)
  | i, [], a, a', h, d, k => by
    unfold processLangs at h
    injection h with h'
    subst h'
    simp [langsContrib]
  | i, lang :: rest, a, a', h, d, k => by
    unfold processLangs at h
    by_cases hg : i + 6 < row.length ∧ row.getD (i + 6) "" ≠ ""
    · rw [if_pos hg] at h
      cases hp : pyInt? (row.getD (i + 6) "") with
      | none => rw [hp] at h; exact Except.noConfusion h
      | some v =>
        rw [hp] at h
        have ih := processLangs_ok_acc h d k
        have hfv : fieldVal (row.getD (i + 6) "") = v := by
          rw [fieldVal, if_neg hg.2, hp]
          rfl
        rw [ih, langsContrib_cons, hfv]
        show (if d = date ∧ k = lang then a d k + v else a d k) + _ = _
        by_cases hd : d = date
        · subst hd
          by_cases hk : k = lang
          · subst hk
            rw [if_pos (And.intro rfl rfl), if_pos rfl, if_pos rfl,
              if_pos (And.intro rfl hg)]
            ring
          · rw [if_neg (fun hc => hk hc.2), if_pos rfl, if_pos rfl,
              if_neg (fun hc => hk hc.1)]
            ring
        · rw [if_neg (fun hc => hd hc.1), if_neg hd, if_neg hd]
    · rw [if_neg hg] at h
      have ih := processLangs_ok_acc h d k
      rw [ih, langsContrib_cons,
        if_neg (fun hc : k = lang ∧ i + 6 < row.length ∧ row.getD (i + 6) "" ≠ "" => hg hc.2),
        zero_add]

theorem processLangs_exOk {date : String} {row : List String} :
    ∀ (i : Nat) (langs : List String) (a : String → String → Int),
      exOk (processLangs date row i langs a) = langsOk row i langs
  | _, [], _ => rfl
  | i, lang :: rest, a => by
    unfold processLangs langsOk
    by_cases hg : i + 6 < row.length ∧ row.getD (i + 6) "" ≠ ""
    · rw [if_pos hg, if_pos hg]
      cases hp : pyInt? (row.getD (i + 6) "") with
      | none => simp [exOk]
      | some v =>
        rw [processLangs_exOk (i + 1) rest]
        simp
    · rw [if_neg hg, if_neg hg]
      rw [processLangs_exOk (i + 1) rest]
      simp

theorem rowDate_short {row : List String} (h : row.length < 6) :
    rowDate row = none := by
  unfold rowDate
  rw [if_neg (by omega)]

theorem rowDate_long {row : List String} (h : ¬ row.length < 6) :
    rowDate row = some (row.getD 2 "") := by
  unfold rowDate
  rw [if_pos (by omega)]

theorem rowContrib_short {langs row : List String} (h : row.length < 6)
    (d k : String) : rowContrib langs row d k = 0 := by
  unfold rowContrib
  rw [if_neg (fun hc => by omega)]

theorem processRow_ok_spec {langs : List String} {st : AggState}
    {row : List String} {st' : AggState}
    (h : processRow langs st row = Except.ok st') :
    st'.dates = (if row.length < 6 then st.dates
      else addDate st.dates (row.getD 2 ""))
    ∧ ∀ d k, st'.acc d k = st.acc d k + rowContrib langs row d k := by
  unfold processRow at h
  by_cases h6 : row.length < 6
  · rw [if_pos h6] at h
    injection h with h'
    subst h'
    refine ⟨by rw [if_pos h6], ?_⟩
    intro d k
    rw [rowContrib_short h6]
    ring
  · rw [if_neg h6] at h
    split at h
    · exact Except.noConfusion h
    · rename_i loc hp4
      split at h
      · exact Except.noConfusion h
      · rename_i d5 hp5
        split at h
        · exact Except.noConfusion h
        · rename_i acc2 hpl
          injection h with h'
          subst h'
          refine ⟨by rw [if_neg h6], ?_⟩
          intro d k
          have hacc := processLangs_ok_acc hpl d k
          show acc2 d k = st.acc d k + rowContrib langs row d k
          rw [hacc]
          show (if d = row.getD 2 "" ∧ k = "total_loc" then st.acc d k + loc
            else st.acc d k) + _ = _
          unfold rowContrib
          by_cases hd : d = row.getD 2 ""
          · rw [if_pos (And.intro (by omega) hd.symm), if_pos hd]
            by_cases hk : k = "total_loc"
            · rw [if_pos (And.intro hd hk), if_pos hk,
                parseField_ok_val hp4]
              ring
            · rw [if_neg (fun hc => hk hc.2), if_neg hk]
              ring
          · rw [if_neg (fun hc => hd hc.1), if_neg hd,
              if_neg (fun hc => hd hc.2.symm)]

theorem processRow_exOk (langs : List String) (st : AggState)
    (row : List String) :
    exOk (processRow langs st row) = rowOkB langs row := by
  unfold processRow rowOkB
  by_cases h6 : row.length < 6
  · rw [if_pos h6, if_pos h6]
    rfl
  · rw [if_neg h6, if_neg h6]
    cases hp4 : parseField (row.getD 4 "") with
    | error e =>
      have hc4 : cellOk (row.getD 4 "") = false := by
        have hx := parseField_exOk (row.getD 4 "")
        rw [hp4] at hx
        exact hx.symm
      show false = (cellOk (row.getD 4 "") && cellOk (row.getD 5 "")
        && langsOk row 0 langs)
      rw [hc4]
      rfl
    | ok loc =>
      have hc4 : cellOk (row.getD 4 "") = true := by
        have hx := parseField_exOk (row.getD 4 "")
        rw [hp4] at hx
        exact hx.symm
      cases hp5 : parseField (row.getD 5 "") with
      | error e =>
        have hc5 : cellOk (row.getD 5 "") = false := by
          have hx := parseField_exOk (row.getD 5 "")
          rw [hp5] at hx
          exact hx.symm
        show false = (cellOk (row.getD 4 "") && cellOk (row.getD 5 "")
          && langsOk row 0 langs)
        rw [hc4, hc5]
        rfl
      | ok d5 =>
        have hc5 : cellOk (row.getD 5 "") = true := by
          have hx := parseField_exOk (row.getD 5 "")
          rw [hp5] at hx
          exact hx.symm
        show exOk (match processLangs (row.getD 2 "") row 0 langs
            (bump st.acc (row.getD 2 "") "total_loc" loc) with
          | Except.error e => Except.error e
          | Except.ok acc2 =>
            Except.ok (AggState.mk (addDate st.dates (row.getD 2 "")) acc2))
          = (cellOk (row.getD 4 "") && cellOk (row.getD 5 "")
            && langsOk row 0 langs)
        have hpl := @processLangs_exOk (row.getD 2 "") row 0 langs
          (bump st.acc (row.getD 2 "") "total_loc" loc)
        cases hl : processLangs (row.getD 2 "") row 0 langs
            (bump st.acc (row.getD 2 "") "total_loc" loc) with
        | error e =>
          rw [hl] at hpl
          show false = (cellOk (row.getD 4 "") && cellOk (row.getD 5 "")
            && langsOk row 0 langs)
          rw [hc4, hc5, ← hpl]
          rfl
        | ok acc2 =>
          rw [hl] at hpl
          show true = (cellOk (row.getD 4 "") && cellOk (row.getD 5 "")
            && langsOk row 0 langs)
          rw [hc4, hc5, ← hpl]
          rfl

theorem processRows_ok_spec {langs : List String} :
    ∀ {rows : List (List String)} {st st' : AggState},
      processRows langs st rows = Except.ok st' →
      (∀ d k, st'.acc d k =
        st.acc d k + (rows.map (fun r => rowContrib langs r d k)).sum)
      ∧ (∀ d, d ∈ st'.dates ↔ d ∈ st.dates ∨ ∃ r ∈ rows, rowDate r = some d)
      ∧ (st.dates.Nodup → st'.dates.Nodup)
  | [], st, st', h => by
    unfold processRows at h
    injection h with h'
    subst h'
    refine ⟨fun d k => by simp, fun d => by simp, fun hn => hn⟩
  | row :: rest, st, st', h => by
    unfold processRows at h
    cases hr : processRow langs st row with
    | error e => rw [hr] at h; exact Except.noConfusion h
    | ok st2 =>
      rw [hr] at h
      obtain ⟨ihacc, ihdates, ihnodup⟩ := processRows_ok_spec h
      obtain ⟨hdates2, hacc2⟩ := processRow_ok_spec hr
      refine ⟨?_, ?_, ?_⟩
      · intro d k
        rw [ihacc d k, hacc2 d k]
        simp [List.map_cons, List.sum_cons]
        ring
      · intro d
        rw [ihdates d]
        by_cases h6 : row.length < 6
        · rw [hdates2, if_pos h6]
          constructor
          · rintro (hm | ⟨r, hrm, hrd⟩)
            · exact Or.inl hm
            · exact Or.inr ⟨r, List.mem_cons_of_mem _ hrm, hrd⟩
          · rintro (hm | ⟨r, hrm, hrd⟩)
            · exact Or.inl hm
            · rcases List.mem_cons.mp hrm with rfl | hrm2
              · rw [rowDate_short h6] at hrd
                exact Option.noConfusion hrd
              · exact Or.inr ⟨r, hrm2, hrd⟩
        · rw [hdates2, if_neg h6]
          rw [mem_addDate]
          constructor
          · rintro ((hm | rfl) | ⟨r, hrm, hrd⟩)
            · exact Or.inl hm
            · exact Or.inr ⟨row, List.mem_cons_self _ _, rowDate_long h6⟩
            · exact Or.inr ⟨r, List.mem_cons_of_mem _ hrm, hrd⟩
          · rintro (hm | ⟨r, hrm, hrd⟩)
            · exact Or.inl (Or.inl hm)
            · rcases List.mem_cons.mp hrm with rfl | hrm2
              · rw [rowDate_long h6] at hrd
                injection hrd with hrd'
                exact Or.inl (Or.inr hrd'.symm)
              · exact Or.inr ⟨r, hrm2, hrd⟩
      · intro hn
        apply ihnodup
        rw [hdates2]
        by_cases h6 : row.length < 6
        · rw [if_pos h6]; exact hn
        · rw [if_neg h6]; exact addDate_nodup hn _

theorem processRows_exOk (langs : List String) :
    ∀ (rows : List (List String)) (st : AggState),
      exOk (processRows langs st rows) = rows.all (rowOkB langs)
  | [], st => rfl
  | row :: rest, st => by
    unfold processRows
    cases hr : processRow langs st row with
    | error e =>
      have := processRow_exOk langs st row
      rw [hr] at this
      simp [exOk] at this
      simp [exOk, ← this]
    | ok st2 =>
      have := processRow_exOk langs st row
      rw [hr] at this
      simp [exOk] at this
      rw [processRows_exOk langs rest st2]
      simp [← this]

theorem processFiles_ok_spec :
    ∀ {files : List CSVFile} {st st' : AggState},
      processFiles st files = Except.ok st' →
      (∀ d k, st'.acc d k = st.acc d k + filesContrib files d k)
      ∧ (∀ d, d ∈ st'.dates ↔ d ∈ st.dates ∨ ∃ f ∈ files, ∃ r ∈ f.rows,
          rowDate r = some d)
      ∧ (st.dates.Nodup → st'.dates.Nodup)
  | [], st, st', h => by
    unfold processFiles at h
    injection h with h'
    subst h'
    refine ⟨fun d k => by simp [filesContrib], fun d => by simp, fun hn => hn⟩
  | f :: fs, st, st', h => by
    unfold processFiles at h
    cases hf : processFile st f with
    | error e => rw [hf] at h; exact Except.noConfusion h
    | ok st2 =>
      rw [hf] at h
      obtain ⟨ihacc, ihdates, ihnodup⟩ := processFiles_ok_spec h
      obtain ⟨hacc2, hdates2, hnodup2⟩ := processRows_ok_spec hf
      refine ⟨?_, ?_, ?_⟩
      · intro d k
        rw [ihacc d k, hacc2 d k]
        unfold filesContrib fileContrib
        simp [List.map_cons, List.sum_cons]
        ring
      · intro d
        rw [ihdates d]
        constructor
        · rintro (hm | ⟨g, hgm, hr⟩)
          · rcases (hdates2 d).mp hm with hm2 | ⟨r, hrm, hrd⟩
            · exact Or.inl hm2
            · exact Or.inr ⟨f, List.mem_cons_self _ _, r, hrm, hrd⟩
          · exact Or.inr ⟨g, List.mem_cons_of_mem _ hgm, hr⟩
        · rintro (hm | ⟨g, hgm, r, hrm, hrd⟩)
          · exact Or.inl ((hdates2 d).mpr (Or.inl hm))
          · rcases List.mem_cons.mp hgm with rfl | hgm2
            · exact Or.inl ((hdates2 d).mpr (Or.inr ⟨r, hrm, hrd⟩))
            · exact Or.inr ⟨g, hgm2, r, hrm, hrd⟩
      · intro hn
        exact ihnodup (hnodup2 hn)

theorem processFiles_exOk :
    ∀ (files : List CSVFile) (st : AggState),
      exOk (processFiles st files) = files.all fileOkB
  | [], st => rfl
  | f :: fs, st => by
    unfold processFiles
    cases hf : processFile st f with
    | error e =>
      have hof : exOk (processFile st f) = fileOkB f := processRows_exOk _ _ _
      rw [hf] at hof
      simp [exOk] at hof
      simp [exOk, ← hof]
    | ok st2 =>
      have hof : exOk (processFile st f) = fileOkB f := processRows_exOk _ _ _
      rw [hf] at hof
      simp [exOk] at hof
      rw [processFiles_exOk fs st2]
      simp [← hof]

theorem sorted_lt_of_le_nodup :
    ∀ {l : List String}, l.Sorted strLe → l.Nodup → l.Sorted strLt
  | [], _, _ => List.Pairwise.nil
  | a :: t, hs, hn => by
    rw [List.sorted_cons] at hs
    rw [List.nodup_cons] at hn
    refine List.Pairwise.cons ?_ (sorted_lt_of_le_nodup hs.2 hn.2)
    intro b hb
    rcases hs.1 b hb with hlt | rfl
    · exact hlt
    · exact absurd hb hn.1

theorem mem_sorted_dates (st : AggState) (d : String) :
    d ∈ sorted_dates st ↔ d ∈ st.dates ∧ d ≠ INITIAL_DATE := by
  unfold sorted_dates
  rw [(List.perm_insertionSort strLe _).mem_iff, List.mem_filter]
  simp

theorem sorted_dates_nodup (st : AggState) (h : st.dates.Nodup) :
    (sorted_dates st).Nodup :=
  ((List.perm_insertionSort strLe _).nodup_iff).mpr (h.filter _)

theorem sorted_dates_sorted (st : AggState) (h : st.dates.Nodup) :
    (sorted_dates st).Sorted strLt :=
  sorted_lt_of_le_nodup (List.sorted_insertionSort strLe _)
    (sorted_dates_nodup st h)

theorem mem_sorted_languages (files : List CSVFile) (l : String) :
    l ∈ sorted_languages files ↔ ∃ f ∈ files, l ∈ fileLangs f := by
  unfold sorted_languages all_languages
  rw [(List.perm_insertionSort strLe _).mem_iff, List.mem_dedup,
    List.mem_flatten]
  constructor
  · rintro ⟨ll, hll, hl⟩
    rcases List.mem_map.mp hll with ⟨f, hf, rfl⟩
    exact ⟨f, hf, hl⟩
  · rintro ⟨f, hf, hl⟩
    exact ⟨fileLangs f, List.mem_map_of_mem fileLangs hf, hl⟩

theorem sorted_languages_nodup (files : List CSVFile) :
    (sorted_languages files).Nodup :=
  ((List.perm_insertionSort strLe _).nodup_iff).mpr (List.nodup_dedup _)

theorem sorted_languages_sorted (files : List CSVFile) :
    (sorted_languages files).Sorted strLt :=
  sorted_lt_of_le_nodup (List.sorted_insertionSort strLe _)
    (sorted_languages_nodup files)

theorem sum_map_add {α : Type} :
    ∀ (l : List α) (f g : α → Int),
      (l.map (fun x => f x + g x)).sum = (l.map f).sum + (l.map g).sum
  | [], _, _ => by simp
  | x :: t, f, g => by
    simp only [List.map_cons, List.sum_cons, sum_map_add t f g]
    ring

theorem sum_map_zero {α : Type} (l : List α) :
    (l.map (fun _ => (0 : Int))).sum = 0 := by
  induction l with
  | nil => rfl
  | cons x t ih => simp [ih]

theorem sum_indicator_not_mem {a : String} (v : Int) :
    ∀ {l : List String}, a ∉ l →
      (l.map (fun k => if k = a then v else 0)).sum = 0
  | [], _ => rfl
  | b :: t, h => by
    have hb : ¬ b = a := fun hba => h (hba ▸ List.mem_cons_self b t)
    have ht : a ∉ t := fun hm => h (List.mem_cons_of_mem b hm)
    simp [hb, sum_indicator_not_mem v ht]

theorem sum_indicator_mem {a : String} (v : Int) :
    ∀ {l : List String}, l.Nodup → a ∈ l →
      (l.map (fun k => if k = a then v else 0)).sum = v
  | [], _, hm => absurd hm (List.not_mem_nil a)
  | b :: t, hn, hm => by
    rw [List.nodup_cons] at hn
    rcases List.mem_cons.mp hm with rfl | hmt
    · simp [sum_indicator_not_mem v hn.1]
    · have hb : ¬ b = a := fun hba => hn.1 (hba ▸ hmt)
      simp [hb, sum_indicator_mem v hn.2 hmt]

theorem sum_comm_int {α β : Type} :
    ∀ (S : List α) (T : List β) (g : α → β → Int),
      (S.map (fun s => (T.map (g s)).sum)).sum
        = (T.map (fun t => (S.map (fun s => g s t)).sum)).sum
  | [], T, g => by simp [sum_map_zero]
  | s :: S', T, g => by
    simp only [List.map_cons, List.sum_cons, sum_comm_int S' T g]
    rw [← sum_map_add T (g s) (fun t => (S'.map (fun s' => g s' t)).sum)]

theorem sum_ite_pull {α : Type} (c : Prop) [Decidable c] (l : List α)
    (f : α → Int) :
    (l.map (fun x => if c then f x else 0)).sum
      = if c then (l.map f).sum else 0 := by
  by_cases hc : c
  · simp [hc]
  · simp [hc, sum_map_zero]

theorem aggregateData_spec {files : List CSVFile} {out : List OutRow}
    (h : aggregateData files = Except.ok (some out)) :
    ∃ st : AggState, processFiles initialState files = Except.ok st
      ∧ out = outputData st (sorted_languages files)
      ∧ (∀ d k, st.acc d k = filesContrib files d k)
      ∧ (∀ d, d ∈ st.dates ↔ ∃ f ∈ files, ∃ r ∈ f.rows, rowDate r = some d)
      ∧ st.dates.Nodup := by
  unfold aggregateData at h
  by_cases he : files.isEmpty
  · rw [if_pos he] at h
    injection h with h'
    exact Option.noConfusion h'
  · rw [if_neg he] at h
    cases hp : processFiles initialState files with
    | error e => rw [hp] at h; exact Except.noConfusion h
    | ok st =>
      rw [hp] at h
      injection h with h'
      injection h' with h''
      obtain ⟨hacc, hdates, hnodup⟩ := processFiles_ok_spec hp
      refine ⟨st, rfl, h''.symm, ?_, ?_, ?_⟩
      · intro d k
        have hx := hacc d k
        simpa [initialState] using hx
      · intro d
        have hx := hdates d
        simpa [initialState] using hx
      · exact hnodup (by simp [initialState])

theorem aggregateCSV_spec {files : List CSVFile} {out : List (List String)}
    (h : aggregateCSV files = Except.ok (some out)) :
    ∃ st : AggState, processFiles initialState files = Except.ok st
      ∧ out = headerRow files ::
          (outputData st (sorted_languages files)).map renderRow
      ∧ (∀ d k, st.acc d k = filesContrib files d k)
      ∧ (∀ d, d ∈ st.dates ↔ ∃ f ∈ files, ∃ r ∈ f.rows, rowDate r = some d)
      ∧ st.dates.Nodup := by
  unfold aggregateCSV at h
  by_cases he : files.isEmpty
  · rw [if_pos he] at h
    injection h with h'
    exact Option.noConfusion h'
  · rw [if_neg he] at h
    cases hp : processFiles initialState files with
    | error e => rw [hp] at h; exact Except.noConfusion h
    | ok st =>
      rw [hp] at h
      injection h with h'
      injection h' with h''
      obtain ⟨hacc, hdates, hnodup⟩ := processFiles_ok_spec hp
      refine ⟨st, rfl, h''.symm, ?_, ?_, ?_⟩
      · intro d k
        have hx := hacc d k
        simpa [initialState] using hx
      · intro d
        have hx := hdates d
        simpa [initialState] using hx
      · exact hnodup (by simp [initialState])

theorem commitRows_eq :
    ∀ (outcomes : List (Option Int)) (i : Nat) (prev : Int),
      (i = 0 → prev = 0) →
      commitRows i prev outcomes =
        List.zipWith (fun t p => LocRecord.mk t (t - p))
          (outcomes.filterMap id) (prev :: outcomes.filterMap id)
  | [], i, prev, h => rfl
  | none :: rest, i, prev, h => by
    unfold commitRows
    rw [commitRows_eq rest (i + 1) prev (fun hi => Nat.noConfusion hi)]
    rfl
  | some t :: rest, i, prev, h => by
    unfold commitRows
    rw [commitRows_eq rest (i + 1) t (fun hi => Nat.noConfusion hi)]
    have hdelta : (if i > 0 then t - prev else t) = t - prev := by
      rcases Nat.eq_zero_or_pos i with rfl | hi
      · rw [h rfl]
        simp
      · rw [if_pos hi]
    rw [hdelta]
    rfl

/-- Claim C9 (confirmed): in the per-repository series builder, every
recorded row's `delta` equals its `total_lines` minus the `total_lines` of
the immediately preceding successfully processed commit (failed commits are
skipped, not zero-filled), and the first recorded row's `delta` equals its
own `total_lines` (previous value 0): the recorded rows are exactly
`deltaSpecRows` of the successful totals. -/
theorem C9_delta_vs_previous_success (outcomes : List (Option Int)) :
    generate_csv_rows outcomes = deltaSpecRows (outcomes.filterMap id) := by
  unfold generate_csv_rows deltaSpecRows
  exact commitRows_eq outcomes 0 0 (fun _ => rfl)

/-- Claim C6, counterexample: with no input files the aggregator does not
emit the anchor-only output (it emits nothing at all). -/
theorem C6_counterexample : ¬ emitsAnchorOnlyOutput [] := by
  intro h
  unfold emitsAnchorOnlyOutput at h
  have hnone : aggregateCSV [] = Except.ok none := rfl
  rw [hnone] at h
  injection h with h'
  exact Option.noConfusion h'

/-- Claim C6, amended: with no input files the aggregator returns without
failing and without writing any output at all (the early return of lines
40-42), rather than emitting an anchor-only output. -/
theorem C6_amended_empty_input_no_output :
    aggregateCSV [] = Except.ok none := rfl

/-- Claim C2, counterexample: on an empty input set no output is produced at
all, so no output containing the anchor row exists. -/
theorem C2_counterexample : aggregateData [] = Except.ok none := rfl

theorem intToStr_zero : intToStr 0 = "0" := rfl

theorem insertionSort_eq_of_mem_iff {l1 l2 : List String} (h1 : l1.Nodup)
    (h2 : l2.Nodup) (hmem : ∀ d, d ∈ l1 ↔ d ∈ l2) :
    List.insertionSort strLe l1 = List.insertionSort strLe l2 := by
  refine List.eq_of_perm_of_sorted ?_ (List.sorted_insertionSort strLe l1)
    (List.sorted_insertionSort strLe l2)
  exact ((List.perm_insertionSort strLe l1).trans
    ((List.perm_ext_iff_of_nodup h1 h2).mpr hmem)).trans
    (List.perm_insertionSort strLe l2).symm

theorem sorted_dates_eq_of_mem_iff {st1 st2 : AggState}
    (h1 : st1.dates.Nodup) (h2 : st2.dates.Nodup)
    (hmem : ∀ d, d ≠ INITIAL_DATE → (d ∈ st1.dates ↔ d ∈ st2.dates)) :
    sorted_dates st1 = sorted_dates st2 := by
  unfold sorted_dates
  apply insertionSort_eq_of_mem_iff (h1.filter _) (h2.filter _)
  intro d
  rw [List.mem_filter, List.mem_filter]
  constructor
  · rintro ⟨hm, hne⟩
    refine ⟨?_, hne⟩
    have hne' : d ≠ INITIAL_DATE := by simpa using hne
    exact (hmem d hne').mp hm
  · rintro ⟨hm, hne⟩
    refine ⟨?_, hne⟩
    have hne' : d ≠ INITIAL_DATE := by simpa using hne
    exact (hmem d hne').mpr hm

theorem outputData_congr {st1 st2 : AggState} (langs : List String)
    (hd : sorted_dates st1 = sorted_dates st2)
    (ha : ∀ d, d ∈ sorted_dates st1 → ∀ k, st1.acc d k = st2.acc d k) :
    outputData st1 langs = outputData st2 langs := by
  unfold outputData
  rw [← hd]
  congr 1
  apply List.map_congr_left
  intro d hdm
  unfold dateRow
  rw [ha d hdm "total_loc"]
  congr 1
  apply List.map_congr_left
  intro l _
  exact ha d hdm l

theorem sum_over_filter (p : List String → Bool) (g : List String → Int) :
    ∀ (l : List (List String)),
      (∀ r ∈ l, p r = false → g r = 0) →
      ((l.filter p).map g).sum = (l.map g).sum
  | [], _ => rfl
  | r :: t, h => by
    have ht : ∀ r' ∈ t, p r' = false → g r' = 0 :=
      fun r' hm => h r' (List.mem_cons_of_mem r hm)
    cases hp : p r with
    | true =>
      rw [List.filter_cons_of_pos hp]
      simp only [List.map_cons, List.sum_cons, sum_over_filter p g t ht]
    | false =>
      rw [List.filter_cons_of_neg (by simp [hp])]
      rw [sum_over_filter p g t ht]
      simp only [List.map_cons, List.sum_cons,
        h r (List.mem_cons_self r t) hp]
      ring

theorem fileLangs_dropAnchor (f : CSVFile) :
    fileLangs (dropAnchorRows f) = fileLangs f := rfl

theorem fileContrib_dropAnchor (f : CSVFile) {d : String} (k : String)
    (hd : d ≠ INITIAL_DATE) :
    fileContrib (dropAnchorRows f) d k = fileContrib f d k := by
  unfold fileContrib dropAnchorRows
  apply sum_over_filter
  intro r _ hp
  have hr2 : r.getD 2 "" = INITIAL_DATE := by
    simpa using hp
  unfold rowContrib
  rw [if_neg]
  rintro ⟨_, hrd⟩
  rw [hr2] at hrd
  exact hd hrd.symm

theorem rowDate_some {row : List String} {d : String}
    (h : rowDate row = some d) : 6 ≤ row.length ∧ row.getD 2 "" = d := by
  unfold rowDate at h
  by_cases h6 : 6 ≤ row.length
  · rw [if_pos h6] at h
    injection h with h'
    exact ⟨h6, h'⟩
  · rw [if_neg h6] at h
    exact Option.noConfusion h

theorem sorted_languages_dropAnchor (files : List CSVFile) :
    sorted_languages (files.map dropAnchorRows) = sorted_languages files := by
  have hm : (files.map dropAnchorRows).map fileLangs = files.map fileLangs := by
    rw [List.map_map]
    apply List.map_congr_left
    intro f _
    rfl
  unfold sorted_languages all_languages
  rw [hm]

theorem headerRow_dropAnchor (files : List CSVFile) :
    headerRow (files.map dropAnchorRows) = headerRow files := by
  unfold headerRow
  rw [sorted_languages_dropAnchor]

theorem filesContrib_dropAnchor (files : List CSVFile) {d : String}
    (k : String) (hd : d ≠ INITIAL_DATE) :
    filesContrib (files.map dropAnchorRows) d k = filesContrib files d k := by
  unfold filesContrib
  rw [List.map_map]
  congr 1
  apply List.map_congr_left
  intro f _
  exact fileContrib_dropAnchor f k hd

theorem filesOk_dropAnchor {files : List CSVFile}
    (h : files.all fileOkB = true) :
    (files.map dropAnchorRows).all fileOkB = true := by
  rw [List.all_eq_true] at h ⊢
  intro g hg
  rcases List.mem_map.mp hg with ⟨f, hf, rfl⟩
  have hfok := h f hf
  unfold fileOkB at hfok ⊢
  unfold dropAnchorRows
  rw [List.all_eq_true] at hfok ⊢
  intro r hr
  exact hfok r (List.mem_filter.mp hr).1

theorem dropAnchor_dates_mem (files : List CSVFile) {d : String}
    (hd : d ≠ INITIAL_DATE) :
    (∃ f ∈ files.map dropAnchorRows, ∃ r ∈ f.rows, rowDate r = some d)
      ↔ (∃ f ∈ files, ∃ r ∈ f.rows, rowDate r = some d) := by
  constructor
  · rintro ⟨g, hg, r, hr, hrd⟩
    rcases List.mem_map.mp hg with ⟨f, hf, rfl⟩
    exact ⟨f, hf, r, (List.mem_filter.mp hr).1, hrd⟩
  · rintro ⟨f, hf, r, hr, hrd⟩
    refine ⟨dropAnchorRows f, List.mem_map_of_mem dropAnchorRows hf, r,
      List.mem_filter.mpr ⟨hr, ?_⟩, hrd⟩
    have hr2 : r.getD 2 "" ≠ INITIAL_DATE := by
      rw [(rowDate_some hrd).2]
      exact hd
    simpa using hr2

theorem aggregateCSV_build {files : List CSVFile} {st : AggState}
    (hne : files.isEmpty = false)
    (hp : processFiles initialState files = Except.ok st) :
    aggregateCSV files = Except.ok (some (headerRow files ::
      (outputData st (sorted_languages files)).map renderRow)) := by
  unfold aggregateCSV
  rw [if_neg (by simp [hne]), hp]

theorem aggregateData_build {files : List CSVFile} {st : AggState}
    (hne : files.isEmpty = false)
    (hp : processFiles initialState files = Except.ok st) :
    aggregateData files =
      Except.ok (some (outputData st (sorted_languages files))) := by
  unfold aggregateData
  rw [if_neg (by simp [hne]), hp]

theorem files_nonempty_of_csv_ok {files : List CSVFile}
    {out : List (List String)}
    (hok : aggregateCSV files = Except.ok (some out)) :
    files.isEmpty = false := by
  cases hfe : files.isEmpty
  · rfl
  · exfalso
    unfold aggregateCSV at hok
    rw [if_pos hfe] at hok
    injection hok with h'
    exact Option.noConfusion h'

theorem all_fileOkB_of_ok {files : List CSVFile} {st : AggState}
    (hp : processFiles initialState files = Except.ok st) :
    files.all fileOkB = true := by
  have hx := processFiles_exOk files initialState
  rw [hp] at hx
  exact hx.symm

/-- Claim C2, amended: for every input set that actually produces an output
(nonempty, no parse error), the first data row (row index 1, after the
header) is the all-zero anchor row, and input rows dated at the anchor date
contribute nothing: dropping them from every file leaves the output
unchanged. -/
theorem C2_amended_anchor_row (files : List CSVFile)
    (out : List (List String))
    (hok : aggregateCSV files = Except.ok (some out)) :
    out.get? 1 = some (INITIAL_DATE :: "0" ::
      List.replicate (sorted_languages files).length "0")
    ∧ aggregateCSV (files.map dropAnchorRows) = Except.ok (some out) := by
  obtain ⟨st, hp, hout, hacc, hdm, hnodup⟩ := aggregateCSV_spec hok
  have hne : files.isEmpty = false := files_nonempty_of_csv_ok hok
  constructor
  · subst hout
    simp [outputData, initial_row, renderRow, intToStr_zero,
      List.map_replicate]
  · have hmapne : (files.map dropAnchorRows).isEmpty = false := by
      cases files with
      | nil => exact absurd hne (by simp)
      | cons f fs => rfl
    have hallok : files.all fileOkB = true := all_fileOkB_of_ok hp
    have hmapok : (files.map dropAnchorRows).all fileOkB = true :=
      filesOk_dropAnchor hallok
    have hex : exOk (processFiles initialState (files.map dropAnchorRows))
        = true := by
      rw [processFiles_exOk]
      exact hmapok
    obtain ⟨st2, hp2⟩ := (exOk_true_iff _).mp hex
    obtain ⟨hacc2, hdm2, hnodup2⟩ := processFiles_ok_spec hp2
    have hacc2' : ∀ d k, st2.acc d k =
        filesContrib (files.map dropAnchorRows) d k := by
      intro d k
      have hx := hacc2 d k
      simpa [initialState] using hx
    have hdm2' : ∀ d, d ∈ st2.dates ↔ ∃ f ∈ files.map dropAnchorRows,
        ∃ r ∈ f.rows, rowDate r = some d := by
      intro d
      have hx := hdm2 d
      simpa [initialState] using hx
    have hnodup2' : st2.dates.Nodup := hnodup2 (by simp [initialState])
    have hdates_eq : sorted_dates st2 = sorted_dates st := by
      apply sorted_dates_eq_of_mem_iff hnodup2' hnodup
      intro d hd
      rw [hdm2' d, hdm d]
      exact dropAnchor_dates_mem files hd
    have hout_eq : outputData st2 (sorted_languages files)
        = outputData st (sorted_languages files) := by
      apply outputData_congr _ hdates_eq
      intro d hdmem k
      rw [hacc2' d k, hacc d k]
      have hdne : d ≠ INITIAL_DATE := ((mem_sorted_dates st2 d).mp hdmem).2
      exact filesContrib_dropAnchor files k hdne
    have hbuild := aggregateCSV_build hmapne hp2
    rw [headerRow_dropAnchor, sorted_languages_dropAnchor, hout_eq,
      ← hout] at hbuild
    exact hbuild

theorem getD_map_lt {α β : Type} (f : α → β) (d : α) (d' : β) :
    ∀ (l : List α) (i : Nat), i < l.length →
      (l.map f).getD i d' = f (l.getD i d)
  | [], i, h => absurd h (by simp)
  | a :: t, 0, _ => rfl
  | a :: t, i + 1, h => by
    simp only [List.map_cons, List.getD_cons_succ]
    exact getD_map_lt f d d' t i (by simpa using Nat.lt_of_succ_lt_succ h)

theorem getD_replicate_lt {α : Type} (a d : α) :
    ∀ (n i : Nat), i < n → (List.replicate n a).getD i d = a
  | 0, i, h => absurd h (by omega)
  | n + 1, 0, _ => rfl
  | n + 1, i + 1, h => by
    rw [List.replicate_succ, List.getD_cons_succ]
    exact getD_replicate_lt a d n i (by omega)

theorem getD_mem_of_lt {α : Type} (d : α) :
    ∀ (l : List α) (i : Nat), i < l.length → l.getD i d ∈ l
  | [], i, h => absurd h (by simp)
  | a :: t, 0, _ => List.mem_cons_self a t
  | a :: t, i + 1, h => by
    rw [List.getD_cons_succ]
    exact List.mem_cons_of_mem a
      (getD_mem_of_lt d t i (by simpa using Nat.lt_of_succ_lt_succ h))

theorem outputData_dates (st : AggState) (langs : List String) :
    (outputData st langs).map OutRow.date = INITIAL_DATE :: sorted_dates st := by
  unfold outputData
  simp only [List.map_cons, List.map_map]
  congr 1
  conv_rhs => rw [← List.map_id (sorted_dates st)]
  apply List.map_congr_left
  intro d _
  rfl

/-- Claim C4, counterexample: an input row dated before the anchor date makes
the output dates non-increasing across the anchor row - the anchor row comes
first but its date is lexically larger. -/
theorem C4_counterexample :
    aggregateData [c4file] = Except.ok (some c4out)
    ∧ c4out.map OutRow.date = [INITIAL_DATE, "2023-01-01 00:00:00"]
    ∧ ¬ strLt INITIAL_DATE "2023-01-01 00:00:00" := by
  refine ⟨by decide, by decide, by decide⟩

/-- Claim C4, amended: the data rows after the anchor are in strictly
increasing lexical date order; the whole output including the anchor row is
strictly increasing only under the additional assumption that every valid
input row is dated at or after the anchor date. -/
theorem C4_amended_date_order (files : List CSVFile) (out : List OutRow)
    (hok : aggregateData files = Except.ok (some out)) :
    ((out.drop 1).map OutRow.date).Sorted strLt
    ∧ ((∀ f ∈ files, ∀ r ∈ f.rows, 6 ≤ r.length →
          strLe INITIAL_DATE (r.getD 2 "")) →
        (out.map OutRow.date).Sorted strLt) := by
  obtain ⟨st, hp, hout, hacc, hdm, hnodup⟩ := aggregateData_spec hok
  subst hout
  have hsorted := sorted_dates_sorted st hnodup
  have hdrop : ((outputData st (sorted_languages files)).drop 1).map
      OutRow.date = sorted_dates st := by
    unfold outputData
    simp only [List.drop_succ_cons, List.drop_zero, List.map_map]
    conv_rhs => rw [← List.map_id (sorted_dates st)]
    apply List.map_congr_left
    intro d _
    rfl
  constructor
  · rw [hdrop]
    exact hsorted
  · intro hge
    rw [outputData_dates]
    refine List.Pairwise.cons ?_ hsorted
    intro d hdmem
    have hmem := (mem_sorted_dates st d).mp hdmem
    rcases (hdm d).mp hmem.1 with ⟨f, hf, r, hr, hrd⟩
    obtain ⟨h6, h2⟩ := rowDate_some hrd
    have hge' := hge f hf r hr h6
    rw [h2] at hge'
    rcases hge' with hlt | heq
    · exact hlt
    · exact absurd heq.symm hmem.2

/-- Witness for the amended claim C4 at a concrete input dated after the
anchor. -/
theorem C4_amended_witness :
    aggregateData [c1wfile] = Except.ok (some c1wout)
    ∧ ((c1wout.drop 1).map OutRow.date).Sorted strLt
    ∧ (c1wout.map OutRow.date).Sorted strLt :=
  ⟨by decide, (C4_amended_date_order [c1wfile] c1wout (by decide)).1,
    (C4_amended_date_order [c1wfile] c1wout (by decide)).2 (by decide)⟩

/-- Witness for the amended claim C2 at a concrete input. -/
theorem C2_amended_witness :
    aggregateCSV [c1wfile] = Except.ok (some c2wout)
    ∧ c2wout.get? 1 = some (INITIAL_DATE :: "0" ::
        List.replicate (sorted_languages [c1wfile]).length "0")
    ∧ aggregateCSV ([c1wfile].map dropAnchorRows) = Except.ok (some c2wout) :=
  ⟨by decide, (C2_amended_anchor_row [c1wfile] c2wout (by decide)).1,
    (C2_amended_anchor_row [c1wfile] c2wout (by decide)).2⟩

theorem langsContrib_zero_of_no_contrib (row : List String)
    (langs : List String) (k : String)
    (h : ∀ j, j < langs.length → langs.getD j "" = k →
      ¬(j + 6 < row.length ∧ row.getD (j + 6) "" ≠ "")) :
    langsContrib row 0 langs k = 0 := by
  apply langsContrib_of_all_fail
  intro j hj hg
  have hx := h j hj hg
  simpa using hx

theorem sum_eq_zero_int :
    ∀ {l : List Int}, (∀ x ∈ l, x = 0) → l.sum = 0
  | [], _ => rfl
  | x :: t, h => by
    rw [List.sum_cons, h x (List.mem_cons_self x t),
      sum_eq_zero_int (fun y hy => h y (List.mem_cons_of_mem x hy))]
    ring

theorem filesContrib_zero_of_no_contrib {files : List CSVFile}
    {d lang : String} (hne : lang ≠ "total_loc")
    (hnc : ¬ hasContribution files d lang) :
    filesContrib files d lang = 0 := by
  unfold filesContrib
  apply sum_eq_zero_int
  intro x hx
  rcases List.mem_map.mp hx with ⟨f, hf, rfl⟩
  unfold fileContrib
  apply sum_eq_zero_int
  intro y hy
  rcases List.mem_map.mp hy with ⟨rr, hrr, rfl⟩
  unfold rowContrib
  by_cases hg : 6 ≤ rr.length ∧ rr.getD 2 "" = d
  · rw [if_pos hg, if_neg hne, langsContrib_zero_of_no_contrib]
    · ring
    · intro j hj hgd hguard
      exact hnc ⟨f, hf, rr, hrr, hg.1, hg.2, j, hj, hgd, hguard.1, hguard.2⟩
  · rw [if_neg hg]

/-- Claim C3, counterexample: with a language column literally named
`total_loc`, a date on which that language receives no contribution still
shows a nonzero value in its column (the accumulator key collides with the
running total's key). -/
theorem C3_counterexample :
    aggregateCSV [c3file] = Except.ok (some c3out)
    ∧ ¬ hasContribution [c3file] "2025-06-01 00:00:00" "total_loc"
    ∧ sorted_languages [c3file] = ["total_loc"]
    ∧ (c3out.getD 2 []).getD 2 "" = "5"
    ∧ ("5" : String) ≠ "0" := by
  refine ⟨by decide, by decide, by decide, by decide, by decide⟩

/-- Claim C3, amended: for every input that produces an output, the header is
`date, total_loc` followed by the language columns - the union of all input
headers' languages, duplicate-free and sorted lexicographically; every output
row has exactly `2 + len(languages)` fields; and, provided no input header
names a language `total_loc`, a language with no contribution on a row's date
yields the cell `"0"`, never an empty field. -/
theorem C3_amended_columns (files : List CSVFile) (out : List (List String))
    (hok : aggregateCSV files = Except.ok (some out)) :
    out.head? = some ("date" :: "total_loc" :: sorted_languages files)
    ∧ (∀ l, l ∈ sorted_languages files ↔ ∃ f ∈ files, l ∈ fileLangs f)
    ∧ (sorted_languages files).Sorted strLt
    ∧ (∀ r ∈ out, r.length = 2 + (sorted_languages files).length)
    ∧ ((∀ f ∈ files, "total_loc" ∉ fileLangs f) →
        ∀ r ∈ out.tail, ∀ i, i < (sorted_languages files).length →
          ¬ hasContribution files (r.getD 0 "")
            ((sorted_languages files).getD i "") →
          r.getD (2 + i) "" = "0") := by
  obtain ⟨st, hp, hout, hacc, hdm, hnodup⟩ := aggregateCSV_spec hok
  subst hout
  refine ⟨rfl, fun l => mem_sorted_languages files l,
    sorted_languages_sorted files, ?_, ?_⟩
  · intro r hr
    rcases List.mem_cons.mp hr with rfl | hr2
    · unfold headerRow
      simp only [List.length_cons]
      omega
    · rcases List.mem_map.mp hr2 with ⟨q, hq, rfl⟩
      have hlv : q.langVals.length = (sorted_languages files).length := by
        unfold outputData at hq
        rcases List.mem_cons.mp hq with rfl | hq2
        · simp [initial_row]
        · rcases List.mem_map.mp hq2 with ⟨d, _, rfl⟩
          simp [dateRow]
      unfold renderRow
      simp only [List.length_cons, List.length_map, hlv]
      omega
  · intro hntl r hrt i hi hnc
    have hrt' : r ∈ (outputData st (sorted_languages files)).map renderRow :=
      hrt
    rcases List.mem_map.mp hrt' with ⟨q, hq, rfl⟩
    have h2i : 2 + i = i + 1 + 1 := by omega
    unfold outputData at hq
    rcases List.mem_cons.mp hq with rfl | hq2
    · unfold renderRow initial_row
      rw [h2i, List.getD_cons_succ, List.getD_cons_succ]
      rw [getD_map_lt intToStr 0 "" _ i (by simpa using hi)]
      rw [getD_replicate_lt 0 0 (sorted_languages files).length i hi]
      exact intToStr_zero
    · rcases List.mem_map.mp hq2 with ⟨d, hdmem, rfl⟩
      have hd0 : (renderRow (dateRow st.acc (sorted_languages files) d)).getD
          0 "" = d := rfl
      rw [hd0] at hnc
      have hlang_mem : (sorted_languages files).getD i "" ∈
          sorted_languages files :=
        getD_mem_of_lt "" (sorted_languages files) i hi
      have hlang_ne : (sorted_languages files).getD i "" ≠ "total_loc" := by
        rcases (mem_sorted_languages files _).mp hlang_mem with ⟨f, hf, hfl⟩
        intro hEq
        exact hntl f hf (hEq ▸ hfl)
      unfold renderRow dateRow
      rw [h2i, List.getD_cons_succ, List.getD_cons_succ]
      rw [getD_map_lt intToStr 0 "" _ i (by simpa using hi)]
      rw [getD_map_lt (fun l => st.acc d l) "" 0 _ i (by simpa using hi)]
      rw [hacc d ((sorted_languages files).getD i "")]
      rw [filesContrib_zero_of_no_contrib hlang_ne hnc]
      exact intToStr_zero

/-- Witness for the amended claim C3 at a concrete input. -/
theorem C3_amended_witness :
    c2wout.head? = some ("date" :: "total_loc" :: sorted_languages [c1wfile])
    ∧ (∀ r ∈ c2wout, r.length = 2 + (sorted_languages [c1wfile]).length) :=
  ⟨(C3_amended_columns [c1wfile] c2wout (by decide)).1,
    (C3_amended_columns [c1wfile] c2wout (by decide)).2.2.2.1⟩

theorem sum_langsContrib_over {S : List String} (hS : S.Nodup)
    (row : List String) :
    ∀ (i : Nat) (langs : List String), (∀ l ∈ langs, l ∈ S) →
      (S.map (fun k => langsContrib row i langs k)).sum
        = langsCellSum row i langs
  | i, [], _ => by
    simp [langsContrib, langsCellSum, sum_map_zero]
  | i, lang :: rest, hsub => by
    have hsub' : ∀ l ∈ rest, l ∈ S :=
      fun l hl => hsub l (List.mem_cons_of_mem lang hl)
    have hlang : lang ∈ S := hsub lang (List.mem_cons_self lang rest)
    have hsplit : (S.map (fun k => langsContrib row i (lang :: rest) k)).sum
        = (S.map (fun k =>
            if k = lang ∧ i + 6 < row.length ∧ row.getD (i + 6) "" ≠ "" then
              fieldVal (row.getD (i + 6) "") else 0)).sum
          + (S.map (fun k => langsContrib row (i + 1) rest k)).sum := by
      rw [← sum_map_add]
      apply congrArg List.sum
      apply List.map_congr_left
      intro k _
      exact langsContrib_cons row i lang rest k
    rw [hsplit, sum_langsContrib_over hS row (i + 1) rest hsub']
    have hind : (S.map (fun k =>
        if k = lang ∧ i + 6 < row.length ∧ row.getD (i + 6) "" ≠ "" then
          fieldVal (row.getD (i + 6) "") else 0)).sum
        = if i + 6 < row.length ∧ row.getD (i + 6) "" ≠ "" then
            fieldVal (row.getD (i + 6) "") else 0 := by
      by_cases hG : i + 6 < row.length ∧ row.getD (i + 6) "" ≠ ""
      · rw [if_pos hG]
        have hcong : ∀ k ∈ S,
            (if k = lang ∧ i + 6 < row.length ∧ row.getD (i + 6) "" ≠ "" then
              fieldVal (row.getD (i + 6) "") else 0)
            = (if k = lang then fieldVal (row.getD (i + 6) "") else 0) := by
          intro k _
          by_cases hk : k = lang
          · rw [if_pos ⟨hk, hG⟩, if_pos hk]
          · rw [if_neg (fun hc => hk hc.1), if_neg hk]
        rw [List.map_congr_left hcong,
          sum_indicator_mem (fieldVal (row.getD (i + 6) "")) hS hlang]
      · rw [if_neg hG]
        have hcong : ∀ k ∈ S,
            (if k = lang ∧ i + 6 < row.length ∧ row.getD (i + 6) "" ≠ "" then
              fieldVal (row.getD (i + 6) "") else 0) = (0 : Int) := by
          intro k _
          rw [if_neg (fun hc => hG hc.2)]
        rw [List.map_congr_left hcong, sum_map_zero]
    rw [hind]
    rfl

theorem langsCellSum_eq_range (row : List String) :
    ∀ (i : Nat) (langs : List String), i + 6 + langs.length ≤ row.length →
      langsCellSum row i langs
        = ((List.range langs.length).map
            (fun j => fieldVal (row.getD (i + 6 + j) ""))).sum
  | i, [], _ => by simp [langsCellSum]
  | i, lang :: rest, h => by
    have hlen : rest.length + 1 = (lang :: rest).length := rfl
    have hlt : i + 6 < row.length := by
      rw [← hlen] at h
      omega
    have hterm : (if i + 6 < row.length ∧ row.getD (i + 6) "" ≠ "" then
        fieldVal (row.getD (i + 6) "") else 0)
        = fieldVal (row.getD (i + 6) "") := by
      by_cases hc : row.getD (i + 6) "" = ""
      · rw [if_neg (fun hq => hq.2 hc), fieldVal, if_pos hc]
      · rw [if_pos ⟨hlt, hc⟩]
    have hrec := langsCellSum_eq_range row (i + 1) rest
      (by rw [← hlen] at h; omega)
    show (if i + 6 < row.length ∧ row.getD (i + 6) "" ≠ "" then
        fieldVal (row.getD (i + 6) "") else 0)
      + langsCellSum row (i + 1) rest = _
    rw [hterm, hrec]
    simp only [List.length_cons]
    rw [List.range_succ_eq_map]
    simp only [List.map_cons, List.sum_cons, List.map_map]
    have h0 : i + 6 + 0 = i + 6 := by omega
    rw [h0]
    congr 1
    apply congrArg List.sum
    apply List.map_congr_left
    intro j _
    show fieldVal (row.getD (i + 1 + 6 + j) "")
      = fieldVal (row.getD (i + 6 + Nat.succ j) "")
    have hij : i + 1 + 6 + j = i + 6 + Nat.succ j := by omega
    rw [hij]

theorem langsCellSum_zero_eq (row langs : List String)
    (h : 6 + langs.length ≤ row.length) :
    langsCellSum row 0 langs
      = ((List.range langs.length).map
          (fun j => fieldVal (row.getD (6 + j) ""))).sum := by
  rw [langsCellSum_eq_range row 0 langs (by omega)]

theorem row_total_eq_sum {S langs row : List String} {d : String}
    (hS : S.Nodup) (hsub : ∀ l ∈ langs, l ∈ S) (hSntl : "total_loc" ∉ S)
    (hlen : 6 + langs.length ≤ row.length)
    (hval : fieldVal (row.getD 4 "")
      = ((List.range langs.length).map
          (fun j => fieldVal (row.getD (6 + j) ""))).sum) :
    (S.map (fun l => rowContrib langs row d l)).sum
      = rowContrib langs row d "total_loc" := by
  by_cases hg : 6 ≤ row.length ∧ row.getD 2 "" = d
  · have hLHS : ∀ l ∈ S, rowContrib langs row d l
        = (if l = "total_loc" then fieldVal (row.getD 4 "") else 0)
          + langsContrib row 0 langs l := by
      intro l _
      unfold rowContrib
      rw [if_pos hg]
    rw [List.map_congr_left hLHS, sum_map_add,
      sum_indicator_not_mem (fieldVal (row.getD 4 "")) hSntl,
      sum_langsContrib_over hS row 0 langs hsub,
      langsCellSum_zero_eq row langs hlen]
    unfold rowContrib
    rw [if_pos hg, if_pos rfl,
      langsContrib_of_not_mem (fun hm => hSntl (hsub _ hm)), hval]
    ring
  · have hLHS : ∀ l ∈ S, rowContrib langs row d l = (fun _ => (0 : Int)) l := by
      intro l _
      unfold rowContrib
      rw [if_neg hg]
    rw [List.map_congr_left hLHS, sum_map_zero]
    unfold rowContrib
    rw [if_neg hg]

/-- Claim C1, counterexample: an input whose rows satisfy the per-record
invariant (5 = 3 + 2, all language columns present) but whose header names a
language `total_loc`: the output row's `total_loc` is 7 while its
per-language values sum to 3 + 7 = 10. -/
theorem C1_counterexample :
    recordInvariant [c1file]
    ∧ aggregateData [c1file] = Except.ok (some c1out)
    ∧ ¬ totalsMatch c1out := by
  refine ⟨by decide, by decide, by decide⟩

/-- Claim C1, amended: for every input whose rows satisfy the per-record
invariant and whose headers do not name a language `total_loc`, every output
data row's `total_loc` equals the sum of that row's per-language values. -/
theorem C1_amended_total_eq_sum (files : List CSVFile)
    (hinv : recordInvariant files)
    (hntl : ∀ f ∈ files, "total_loc" ∉ fileLangs f)
    (out : List OutRow)
    (hok : aggregateData files = Except.ok (some out)) :
    totalsMatch out := by
  obtain ⟨st, hp, hout, hacc, hdm, hnodup⟩ := aggregateData_spec hok
  subst hout
  have hSntl : "total_loc" ∉ sorted_languages files := by
    intro hm
    rcases (mem_sorted_languages files _).mp hm with ⟨f, hf, hfl⟩
    exact hntl f hf hfl
  have hSnodup := sorted_languages_nodup files
  intro r hr
  unfold outputData at hr
  rcases List.mem_cons.mp hr with rfl | hr2
  · show (0 : Int) = (List.replicate (sorted_languages files).length
      (0 : Int)).sum
    exact (sum_eq_zero_int (fun x hx => List.eq_of_mem_replicate hx)).symm
  · rcases List.mem_map.mp hr2 with ⟨d, hdmem, rfl⟩
    show st.acc d "total_loc"
      = ((sorted_languages files).map (fun l => st.acc d l)).sum
    rw [hacc d "total_loc"]
    rw [List.map_congr_left (fun l _ => hacc d l)]
    have hfile : ∀ f ∈ files,
        ((sorted_languages files).map (fun l => fileContrib f d l)).sum
          = fileContrib f d "total_loc" := by
      intro f hf
      unfold fileContrib
      rw [sum_comm_int (sorted_languages files) f.rows
        (fun l row => rowContrib (fileLangs f) row d l)]
      apply congrArg List.sum
      apply List.map_congr_left
      intro row hrow
      have hfsub : ∀ l ∈ fileLangs f, l ∈ sorted_languages files :=
        fun l hl => (mem_sorted_languages files l).mpr ⟨f, hf, hl⟩
      exact row_total_eq_sum hSnodup hfsub hSntl
        (hinv f hf row hrow).1 (hinv f hf row hrow).2
    have hswap : ((sorted_languages files).map
        (fun l => filesContrib files d l)).sum
        = (files.map (fun f =>
            ((sorted_languages files).map (fun l => fileContrib f d l)).sum)).sum := by
      unfold filesContrib
      exact sum_comm_int (sorted_languages files) files
        (fun l f => fileContrib f d l)
    rw [hswap, List.map_congr_left hfile]
    rfl

/-- Witness for the amended claim C1 at a concrete invariant-satisfying input
with languages `A` and `B`. -/
theorem C1_amended_witness :
    recordInvariant [c1wfile]
    ∧ (∀ f ∈ [c1wfile], "total_loc" ∉ fileLangs f)
    ∧ totalsMatch c1wout :=
  ⟨by decide, by decide,
    C1_amended_total_eq_sum [c1wfile] (by decide) (by decide) c1wout
      (by decide)⟩

/-- Claim C5 (confirmed): aggregation is additive over records sharing a
date - with two input series, every output data row's `total_loc` is the sum
of the two files' total contributions on that row's date, and each language
value is the sum of their per-language contributions. -/
theorem C5_additive_across_series (f g : CSVFile) (out : List OutRow)
    (hok : aggregateData [f, g] = Except.ok (some out)) :
    ∀ r ∈ out.drop 1,
      r.total_loc = fileContrib f r.date "total_loc"
          + fileContrib g r.date "total_loc"
      ∧ r.langVals = (sorted_languages [f, g]).map
          (fun l => fileContrib f r.date l + fileContrib g r.date l) := by
  obtain ⟨st, hp, hout, hacc, hdm, hnodup⟩ := aggregateData_spec hok
  subst hout
  intro r hr
  have hr' : r ∈ (sorted_dates st).map
      (dateRow st.acc (sorted_languages [f, g])) := hr
  rcases List.mem_map.mp hr' with ⟨d, hdmem, rfl⟩
  have hfc : ∀ k, filesContrib [f, g] d k
      = fileContrib f d k + fileContrib g d k := by
    intro k
    unfold filesContrib
    simp
  constructor
  · show st.acc d "total_loc" = fileContrib f d "total_loc"
      + fileContrib g d "total_loc"
    rw [hacc d "total_loc", hfc "total_loc"]
  · show (sorted_languages [f, g]).map (fun l => st.acc d l)
      = (sorted_languages [f, g]).map
        (fun l => fileContrib f d l + fileContrib g d l)
    apply List.map_congr_left
    intro l _
    rw [hacc d l, hfc l]

/-- Witness for claim C5, the specification's concrete example: two series
with disjoint languages `A: 100` and `B: 100` on the same date yield the row
`total_loc = 200, A = 100, B = 100`. -/
theorem C5_witness :
    aggregateData [c5f, c5g] = Except.ok (some c5out)
    ∧ OutRow.mk "2025-03-04 05:06:07" 200 [100, 100] ∈ c5out.drop 1
    ∧ (OutRow.mk "2025-03-04 05:06:07" 200 [100, 100]).total_loc
        = fileContrib c5f "2025-03-04 05:06:07" "total_loc"
          + fileContrib c5g "2025-03-04 05:06:07" "total_loc"
    ∧ (OutRow.mk "2025-03-04 05:06:07" 200 [100, 100]).langVals
        = (sorted_languages [c5f, c5g]).map (fun l =>
            fileContrib c5f "2025-03-04 05:06:07" l
              + fileContrib c5g "2025-03-04 05:06:07" l) :=
  ⟨by decide, by decide,
    (C5_additive_across_series c5f c5g c5out (by decide)
      (OutRow.mk "2025-03-04 05:06:07" 200 [100, 100]) (by decide)).1,
    (C5_additive_across_series c5f c5g c5out (by decide)
      (OutRow.mk "2025-03-04 05:06:07" 200 [100, 100]) (by decide)).2⟩

theorem processRow_short {langs : List String} {st : AggState}
    {r : List String} (hr : r.length < 6) :
    processRow langs st r = Except.ok st := by
  unfold processRow
  rw [if_pos hr]

theorem processRows_skip {langs : List String} {r : List String}
    (hr : r.length < 6) :
    ∀ (pre : List (List String)) (post : List (List String)) (st : AggState),
      processRows langs st (pre ++ r :: post)
        = processRows langs st (pre ++ post)
  | [], post, st => by
    show processRows langs st (r :: post) = processRows langs st post
    simp only [processRows]
    rw [processRow_short hr]
  | row' :: pre', post, st => by
    show processRows langs st (row' :: (pre' ++ r :: post))
      = processRows langs st (row' :: (pre' ++ post))
    unfold processRows
    cases hrow : processRow langs st row' with
    | error e => rfl
    | ok st2 => exact processRows_skip hr pre' post st2

theorem processFiles_app_congr {f1 f2 : CSVFile}
    (h : ∀ st, processFile st f1 = processFile st f2) :
    ∀ (before after : List CSVFile) (st : AggState),
      processFiles st (before ++ f1 :: after)
        = processFiles st (before ++ f2 :: after)
  | [], after, st => by
    show processFiles st (f1 :: after) = processFiles st (f2 :: after)
    unfold processFiles
    rw [h st]
  | g :: before', after, st => by
    show processFiles st (g :: (before' ++ f1 :: after))
      = processFiles st (g :: (before' ++ f2 :: after))
    unfold processFiles
    cases hg : processFile st g with
    | error e => rfl
    | ok st2 => exact processFiles_app_congr h before' after st2

/-- Claim C7 (confirmed): a data row with fewer than 6 fields is skipped -
deleting it from its file changes nothing about the aggregation (same output,
same error behavior), wherever the row and the file sit in the input. -/
theorem C7_short_rows_skipped (before after : List CSVFile)
    (hdr : List String) (pre post : List (List String))
    (r : List String) (hr : r.length < 6) :
    aggregateCSV (before ++ CSVFile.mk hdr (pre ++ r :: post) :: after)
      = aggregateCSV (before ++ CSVFile.mk hdr (pre ++ post) :: after) := by
  have hfile : ∀ st, processFile st (CSVFile.mk hdr (pre ++ r :: post))
      = processFile st (CSVFile.mk hdr (pre ++ post)) := by
    intro st
    unfold processFile
    exact processRows_skip hr pre post st
  have hlangs : sorted_languages
      (before ++ CSVFile.mk hdr (pre ++ r :: post) :: after)
      = sorted_languages (before ++ CSVFile.mk hdr (pre ++ post) :: after) := by
    unfold sorted_languages all_languages
    simp [fileLangs]
  have hne1 : (before ++ CSVFile.mk hdr (pre ++ r :: post) :: after).isEmpty
      = false := by
    cases before <;> rfl
  have hne2 : (before ++ CSVFile.mk hdr (pre ++ post) :: after).isEmpty
      = false := by
    cases before <;> rfl
  have hhdr : headerRow (before ++ CSVFile.mk hdr (pre ++ r :: post) :: after)
      = headerRow (before ++ CSVFile.mk hdr (pre ++ post) :: after) := by
    unfold headerRow
    rw [hlangs]
  unfold aggregateCSV
  rw [if_neg (by simp [hne1]), if_neg (by simp [hne2]),
    processFiles_app_congr hfile before after initialState, hhdr, hlangs]

/-- Witness for claim C7 at a concrete input: a 2-field row contributes
nothing and does not abort. -/
theorem C7_witness :
    aggregateCSV [CSVFile.mk
        ["repo_name", "commit_hash", "datetime", "author", "lines_of_code",
          "delta", "A"]
        [["bad", "row"], ["r", "h", "2025-06-02 00:00:00", "a", "1", "0", "1"]]]
      = aggregateCSV [CSVFile.mk
        ["repo_name", "commit_hash", "datetime", "author", "lines_of_code",
          "delta", "A"]
        [["r", "h", "2025-06-02 00:00:00", "a", "1", "0", "1"]]] :=
  C7_short_rows_skipped [] []
    ["repo_name", "commit_hash", "datetime", "author", "lines_of_code",
      "delta", "A"]
    [] [["r", "h", "2025-06-02 00:00:00", "a", "1", "0", "1"]]
    ["bad", "row"] (by decide)

theorem getD_set_ne {α : Type} (d : α) :
    ∀ (l : List α) (i j : Nat) (v : α), i ≠ j →
      (l.set i v).getD j d = l.getD j d
  | [], _, _, _, _ => rfl
  | a :: t, 0, 0, v, h => absurd rfl h
  | a :: t, 0, j + 1, v, h => rfl
  | a :: t, i + 1, 0, v, h => rfl
  | a :: t, i + 1, j + 1, v, h => by
    show (a :: t.set i v).getD (j + 1) d = (a :: t).getD (j + 1) d
    rw [List.getD_cons_succ, List.getD_cons_succ]
    exact getD_set_ne d t i j v (fun hij => h (by omega))

theorem getD_set_self {α : Type} (d : α) :
    ∀ (l : List α) (i : Nat) (v : α), i < l.length →
      (l.set i v).getD i d = v
  | [], i, v, h => absurd h (by simp)
  | a :: t, 0, v, _ => rfl
  | a :: t, i + 1, v, h => by
    show (a :: t.set i v).getD (i + 1) d = v
    rw [List.getD_cons_succ]
    exact getD_set_self d t i v (by simpa using Nat.lt_of_succ_lt_succ h)

theorem processLangs_congr {row1 row2 : List String}
    (hlen : row1.length = row2.length)
    (hget : ∀ c, 6 ≤ c → row1.getD c "" = row2.getD c "") (date : String) :
    ∀ (i : Nat) (ls : List String) (a : String → String → Int),
      processLangs date row1 i ls a = processLangs date row2 i ls a
  | i, [], a => rfl
  | i, lang :: rest, a => by
    unfold processLangs
    rw [hlen, hget (i + 6) (by omega)]
    by_cases hg : i + 6 < row2.length ∧ row2.getD (i + 6) "" ≠ ""
    · rw [if_pos hg, if_pos hg]
      cases pyInt? (row2.getD (i + 6) "") with
      | none => rfl
      | some v => exact processLangs_congr hlen hget date (i + 1) rest _
    · rw [if_neg hg, if_neg hg]
      exact processLangs_congr hlen hget date (i + 1) rest a

theorem langsOk_of_parse (row : List String) :
    ∀ (i : Nat) (ls : List String),
      (∀ j, j < ls.length → i + j + 6 < row.length →
        row.getD (i + j + 6) "" = ""
          ∨ (pyInt? (row.getD (i + j + 6) "")).isSome = true) →
      langsOk row i ls = true
  | _, [], _ => rfl
  | i, lang :: rest, h => by
    unfold langsOk
    have hrest := langsOk_of_parse row (i + 1) rest (by
      intro j hj hlt
      have harith : i + 1 + j + 6 = i + (j + 1) + 6 := by omega
      rw [harith] at hlt ⊢
      exact h (j + 1) (by simpa using Nat.succ_lt_succ hj) hlt)
    rw [hrest]
    by_cases hg : i + 6 < row.length ∧ row.getD (i + 6) "" ≠ ""
    · rw [if_pos hg]
      have h0 := h 0 (Nat.succ_pos _) (by
        have harith : i + 0 + 6 = i + 6 := by omega
        rw [harith]
        exact hg.1)
      have harith : i + 0 + 6 = i + 6 := by omega
      rw [harith] at h0
      rcases h0 with hemp | hsome
      · exact absurd hemp hg.2
      · rw [hsome]
        rfl
    · rw [if_neg hg]
      rfl

/-- Claim C10, counterexample: per-row processing is not total - a 6-field
row whose `lines_of_code` cell is the non-numeral `x` makes `int(...)` raise
and aborts the whole run (no output is written). -/
theorem C10_counterexample :
    (["r", "h", "2025-06-01 00:00:00", "a", "x", "0"] : List String).length = 6
    ∧ c10file.rows = [["r", "h", "2025-06-01 00:00:00", "a", "x", "0"]]
    ∧ aggregateCSV [c10file] = Except.error () := by
  refine ⟨by decide, by decide, by decide⟩

/-- Claim C10, amended: for every data row with at least 6 fields whose
numeric cells are empty or integer numerals, per-row processing succeeds:
the accumulator moves exactly by the row's contributions (in particular no
out-of-range access occurs for rows shorter than their header), a language
all of whose columns are beyond the row's length or empty contributes 0 for
that row, and an empty `lines_of_code` cell is treated exactly as the cell
`"0"`. -/
theorem C10_amended_row_totality (langs : List String) (st : AggState)
    (row : List String) (h6 : 6 ≤ row.length)
    (h4 : row.getD 4 "" = "" ∨ (pyInt? (row.getD 4 "")).isSome = true)
    (h5 : row.getD 5 "" = "" ∨ (pyInt? (row.getD 5 "")).isSome = true)
    (hl : ∀ j, j < langs.length → j + 6 < row.length →
      row.getD (j + 6) "" = "" ∨ (pyInt? (row.getD (j + 6) "")).isSome = true) :
    (∃ st', processRow langs st row = Except.ok st'
      ∧ (∀ d k, st'.acc d k = st.acc d k + rowContrib langs row d k)
      ∧ (∀ k, (∀ j, j < langs.length → langs.getD j "" = k →
            ¬(j + 6 < row.length ∧ row.getD (j + 6) "" ≠ "")) →
          k ≠ "total_loc" →
          st'.acc (row.getD 2 "") k = st.acc (row.getD 2 "") k))
    ∧ (row.getD 4 "" = "" →
        processRow langs st row = processRow langs st (row.set 4 "0")) := by
  have hcell : ∀ s : String, s = "" ∨ (pyInt? s).isSome = true →
      cellOk s = true := by
    intro s hs
    unfold cellOk
    rcases hs with rfl | hsome
    · rfl
    · rw [hsome]
      simp
  have hokb : rowOkB langs row = true := by
    unfold rowOkB
    rw [if_neg (by omega)]
    rw [hcell _ h4, hcell _ h5, langsOk_of_parse row 0 langs (by
      intro j hj hlt
      have harith : 0 + j + 6 = j + 6 := by omega
      rw [harith] at hlt ⊢
      exact hl j hj hlt)]
    rfl
  constructor
  · have hex : exOk (processRow langs st row) = true := by
      rw [processRow_exOk]
      exact hokb
    obtain ⟨st', hst'⟩ := (exOk_true_iff _).mp hex
    obtain ⟨hdates, hacc⟩ := processRow_ok_spec hst'
    refine ⟨st', hst', hacc, ?_⟩
    intro k hkfail hkne
    rw [hacc (row.getD 2 "") k]
    unfold rowContrib
    by_cases hg : 6 ≤ row.length ∧ row.getD 2 "" = row.getD 2 ""
    · rw [if_pos hg, if_neg hkne, langsContrib_zero_of_no_contrib row langs k hkfail]
      ring
    · rw [if_neg hg]
      ring
  · intro hemp
    have hlen : (row.set 4 "0").length = row.length := by
      simp
    have hg2 : (row.set 4 "0").getD 2 "" = row.getD 2 "" :=
      getD_set_ne "" row 4 2 "0" (by omega)
    have hg5 : (row.set 4 "0").getD 5 "" = row.getD 5 "" :=
      getD_set_ne "" row 4 5 "0" (by omega)
    have hg4 : (row.set 4 "0").getD 4 "" = "0" :=
      getD_set_self "" row 4 "0" (by omega)
    have hpl : ∀ a, processLangs (row.getD 2 "") (row.set 4 "0") 0 langs a
        = processLangs (row.getD 2 "") row 0 langs a := by
      intro a
      exact processLangs_congr hlen
        (fun c hc => getD_set_ne "" row 4 c "0" (by omega)) (row.getD 2 "")
        0 langs a
    unfold processRow
    rw [hlen, hg2, hg5, hg4, hemp]
    rw [show parseField "" = Except.ok 0 from rfl,
      show parseField "0" = Except.ok 0 from rfl]
    show (if row.length < 6 then Except.ok st else
      match parseField (row.getD 5 "") with
      | Except.error e => Except.error e
      | Except.ok _ =>
        match processLangs (row.getD 2 "") row 0 langs
            (bump st.acc (row.getD 2 "") "total_loc" 0) with
        | Except.error e => Except.error e
        | Except.ok acc2 =>
          Except.ok (AggState.mk (addDate st.dates (row.getD 2 "")) acc2))
      = (if row.length < 6 then Except.ok st else
      match parseField (row.getD 5 "") with
      | Except.error e => Except.error e
      | Except.ok _ =>
        match processLangs (row.getD 2 "") (row.set 4 "0") 0 langs
            (bump st.acc (row.getD 2 "") "total_loc" 0) with
        | Except.error e => Except.error e
        | Except.ok acc2 =>
          Except.ok (AggState.mk (addDate st.dates (row.getD 2 "")) acc2))
    rw [hpl (bump st.acc (row.getD 2 "") "total_loc" 0)]

/-- Witness for the amended claim C10 at a concrete 7-field row with empty
`lines_of_code` and `delta` cells and language column `A` holding `7`. -/
theorem C10_amended_witness :
    (∃ st', processRow ["A"] initialState
        ["r", "h", "2025-06-03 00:00:00", "a", "", "", "7"] = Except.ok st'
      ∧ (∀ d k, st'.acc d k = initialState.acc d k
          + rowContrib ["A"] ["r", "h", "2025-06-03 00:00:00", "a", "", "", "7"] d k)
      ∧ (∀ k, (∀ j, j < (["A"] : List String).length →
            (["A"] : List String).getD j "" = k →
            ¬(j + 6 < (["r", "h", "2025-06-03 00:00:00", "a", "", "", "7"]
                : List String).length
              ∧ (["r", "h", "2025-06-03 00:00:00", "a", "", "", "7"]
                : List String).getD (j + 6) "" ≠ "")) →
          k ≠ "total_loc" →
          st'.acc "2025-06-03 00:00:00" k = initialState.acc "2025-06-03 00:00:00" k))
    ∧ (processRow ["A"] initialState
        ["r", "h", "2025-06-03 00:00:00", "a", "", "", "7"]
      = processRow ["A"] initialState
        (["r", "h", "2025-06-03 00:00:00", "a", "", "", "7"].set 4 "0")) :=
  ⟨(C10_amended_row_totality ["A"] initialState
      ["r", "h", "2025-06-03 00:00:00", "a", "", "", "7"]
      (by decide) (by decide) (by decide) (by decide)).1,
    (C10_amended_row_totality ["A"] initialState
      ["r", "h", "2025-06-03 00:00:00", "a", "", "", "7"]
      (by decide) (by decide) (by decide) (by decide)).2 (by decide)⟩

theorem sorted_languages_perm {files1 files2 : List CSVFile}
    (h : files1.Perm files2) :
    sorted_languages files1 = sorted_languages files2 := by
  unfold sorted_languages
  apply insertionSort_eq_of_mem_iff (List.nodup_dedup _) (List.nodup_dedup _)
  intro l
  rw [List.mem_dedup, List.mem_dedup, List.mem_flatten, List.mem_flatten]
  constructor
  · rintro ⟨ll, hll, hl⟩
    exact ⟨ll, (h.map fileLangs).mem_iff.mp hll, hl⟩
  · rintro ⟨ll, hll, hl⟩
    exact ⟨ll, (h.map fileLangs).mem_iff.mpr hll, hl⟩

theorem filesContrib_perm {files1 files2 : List CSVFile}
    (h : files1.Perm files2) (d k : String) :
    filesContrib files1 d k = filesContrib files2 d k :=
  List.Perm.sum_eq (h.map (fun f => fileContrib f d k))

theorem all_eq_of_perm {files1 files2 : List CSVFile}
    (h : files1.Perm files2) :
    files1.all fileOkB = files2.all fileOkB := by
  cases h1 : files1.all fileOkB with
  | true =>
    have h2 : files2.all fileOkB = true := by
      rw [List.all_eq_true] at h1 ⊢
      intro f hf
      exact h1 f (h.mem_iff.mpr hf)
    rw [h2]
  | false =>
    cases h2 : files2.all fileOkB with
    | false => rfl
    | true =>
      exfalso
      rw [List.all_eq_true] at h2
      have hx : files1.all fileOkB = true := by
        rw [List.all_eq_true]
        intro f hf
        exact h2 f (h.mem_iff.mp hf)
      rw [h1] at hx
      exact Bool.noConfusion hx

/-- Claim C8 (confirmed): aggregation is a pure function of the input set -
permuting the enumeration order of the input files leaves the produced
string rows (and the error behavior) identical, so repeated runs over the
same set are byte-identical. -/
theorem C8_order_independence (files1 files2 : List CSVFile)
    (h : files1.Perm files2) :
    aggregateCSV files1 = aggregateCSV files2 := by
  cases hfe : files1.isEmpty with
  | true =>
    have h1nil : files1 = [] := by
      cases files1 with
      | nil => rfl
      | cons f fs => exact absurd hfe (by simp)
    subst h1nil
    have h2nil : files2 = [] := List.Perm.eq_nil h.symm
    subst h2nil
    rfl
  | false =>
    have hfe2 : files2.isEmpty = false := by
      cases hf2 : files2.isEmpty with
      | false => rfl
      | true =>
        exfalso
        have h2nil : files2 = [] := by
          cases files2 with
          | nil => rfl
          | cons f fs => exact absurd hf2 (by simp)
        subst h2nil
        have h1nil : files1 = [] := List.Perm.eq_nil h
        subst h1nil
        exact absurd hfe (by simp)
    cases hp1 : processFiles initialState files1 with
    | error e =>
      have hx1 := processFiles_exOk files1 initialState
      rw [hp1] at hx1
      have hall := all_eq_of_perm h
      cases hp2 : processFiles initialState files2 with
      | error e2 =>
        cases e
        cases e2
        unfold aggregateCSV
        rw [if_neg (by simp [hfe]), if_neg (by simp [hfe2]), hp1, hp2]
      | ok st2 =>
        exfalso
        have hx2 := processFiles_exOk files2 initialState
        rw [hp2] at hx2
        exact Bool.noConfusion (hx1.trans (hall.trans hx2.symm))
    | ok st1 =>
      have hx1 := processFiles_exOk files1 initialState
      rw [hp1] at hx1
      have hall := all_eq_of_perm h
      have hex2 : exOk (processFiles initialState files2) = true := by
        rw [processFiles_exOk, ← hall]
        exact hx1.symm
      obtain ⟨st2, hp2⟩ := (exOk_true_iff _).mp hex2
      obtain ⟨hacc1, hdm1, hnod1⟩ := processFiles_ok_spec hp1
      obtain ⟨hacc2, hdm2, hnod2⟩ := processFiles_ok_spec hp2
      have hacc1' : ∀ d k, st1.acc d k = filesContrib files1 d k := by
        intro d k
        have hx := hacc1 d k
        simpa [initialState] using hx
      have hacc2' : ∀ d k, st2.acc d k = filesContrib files2 d k := by
        intro d k
        have hx := hacc2 d k
        simpa [initialState] using hx
      have hdm1' : ∀ d, d ∈ st1.dates ↔ ∃ f ∈ files1, ∃ r ∈ f.rows,
          rowDate r = some d := by
        intro d
        have hx := hdm1 d
        simpa [initialState] using hx
      have hdm2' : ∀ d, d ∈ st2.dates ↔ ∃ f ∈ files2, ∃ r ∈ f.rows,
          rowDate r = some d := by
        intro d
        have hx := hdm2 d
        simpa [initialState] using hx
      have hnod1' : st1.dates.Nodup := hnod1 (by simp [initialState])
      have hnod2' : st2.dates.Nodup := hnod2 (by simp [initialState])
      have hlang := sorted_languages_perm h
      have hdates : sorted_dates st1 = sorted_dates st2 := by
        apply sorted_dates_eq_of_mem_iff hnod1' hnod2'
        intro d _
        rw [hdm1' d, hdm2' d]
        constructor
        · rintro ⟨f, hf, hrest⟩
          exact ⟨f, h.mem_iff.mp hf, hrest⟩
        · rintro ⟨f, hf, hrest⟩
          exact ⟨f, h.mem_iff.mpr hf, hrest⟩
      have hhdr : headerRow files1 = headerRow files2 := by
        unfold headerRow
        rw [hlang]
      have houtdata : outputData st1 (sorted_languages files1)
          = outputData st2 (sorted_languages files2) := by
        rw [← hlang]
        apply outputData_congr _ hdates
        intro d _ k
        rw [hacc1' d k, hacc2' d k]
        exact filesContrib_perm h d k
      rw [aggregateCSV_build hfe hp1, aggregateCSV_build hfe2 hp2,
        hhdr, houtdata]

/-- Witness for claim C8: swapping two concrete input files leaves the
output identical. -/
theorem C8_witness :
    aggregateCSV [c5f, c5g] = aggregateCSV [c5g, c5f] :=
  C8_order_independence [c5f, c5g] [c5g, c5f] (List.Perm.swap c5g c5f [])

end Maintenance

